import Mathlib

/-!
# The explicit-free-list allocator of `mm.c`

A shallow embedding of `mm.c` (`align`, `mm_init`, `find_fit`, `malloc`, `free`, `realloc`,
`calloc`) over a byte-addressed memory, followed by theorems about it.

Conventions of the embedding
* Target ABI is x86-64 / LP64, little endian: `size_t` and pointers are 8 bytes, `int` is
  4 bytes, so `struct header_t` has `size` at offset 0, `next` at offset 8, `prev` at
  offset 16, `free` at offset 24 and `sizeof(struct header_t) = 32`.
* `size_t` and pointer arithmetic is arithmetic on `Nat` reduced modulo `2 ^ 64` wherever
  the C expression can wrap. `NULL` is the address `0`.
* The heap memory is a total map from addresses to bytes; the three globals of `mm.c`
  (`prologue`, `free_head`, `free_last`) and the break of `memlib` live outside of it.
* The address of a field inside a header and of a byte inside a copied or filled range is
  the base address plus the offset, not reduced modulo `2 ^ 64`: an object that straddles
  the top of the address space is outside the model.
* `memlib` (`mem_sbrk`) and the raw `memcpy`/`memset` are external to `mm.c`; their
  definitions here are modelled from the specification and marked as such.
-/

namespace MM

/-! ## Machine constants -/

/-- `ALIGNMENT` of `mm.c`. -/
def ALIGNMENT : Nat := 16

/-- Number of values of the 64-bit types `size_t` and `void*`. -/
def WORD : Nat := 2 ^ 64

/-- `sizeof(struct header_t)` under LP64: 8 + 8 + 8 + 4 bytes, padded to 32. -/
def SIZEOF_HEADER : Nat := 32

/-- The null pointer. -/
def NULL : Nat := 0

/-- `align` of `mm.c`: `ALIGNMENT * ((x+ALIGNMENT-1)/ALIGNMENT)` in `size_t` arithmetic:
the sum `x+ALIGNMENT-1` and the product are reduced modulo `2 ^ 64`. -/
def align (x : Nat) : Nat :=
  (ALIGNMENT * (((x + ALIGNMENT - 1) % WORD) / ALIGNMENT)) % WORD

/-! ## Byte-addressed memory -/

/-- Heap contents: the byte stored at every address. -/
abbrev Mem := Nat → Nat

/-- Little-endian load of `n` bytes starting at address `a`. -/
def load (m : Mem) (a : Nat) : Nat → Nat
  | 0 => 0
  | n + 1 => m a % 256 + 256 * load m (a + 1) n

/-- Little-endian store of the low `n` bytes of `v` starting at address `a`. -/
def store (m : Mem) (a : Nat) : Nat → Nat → Mem
  | 0, _ => m
  | n + 1, v => store (Function.update m a (v % 256)) (a + 1) n (v / 256)

/-- Read of `h->size`. -/
def get_size (m : Mem) (h : Nat) : Nat := load m h 8

/-- Read of `h->next`. -/
def get_next (m : Mem) (h : Nat) : Nat := load m (h + 8) 8

/-- Read of `h->prev`. -/
def get_prev (m : Mem) (h : Nat) : Nat := load m (h + 16) 8

/-- Read of `h->free` (the code's encoding: 0 is free, 1 is allocated). -/
def get_free (m : Mem) (h : Nat) : Nat := load m (h + 24) 4

/-- Assignment `h->size = v`. -/
def set_size (m : Mem) (h v : Nat) : Mem := store m h 8 v

/-- Assignment `h->next = v`. -/
def set_next (m : Mem) (h v : Nat) : Mem := store m (h + 8) 8 v

/-- Assignment `h->prev = v`. -/
def set_prev (m : Mem) (h v : Nat) : Mem := store m (h + 16) 8 v

/-- Assignment `h->free = v`. -/
def set_free (m : Mem) (h v : Nat) : Mem := store m (h + 24) 4 v

/-- Modelled from the spec: the raw copy primitive `memcpy(dst, src, n)`, which is not
part of `mm.c`; "byte-wise copy ... side-effect-free beyond the written range". Bytes are
copied one at a time in ascending address order. -/
def memcpy (m : Mem) (dst src : Nat) : Nat → Mem
  | 0 => m
  | n + 1 => memcpy (Function.update m dst (m src)) (dst + 1) (src + 1) n

/-- Modelled from the spec: the raw fill primitive `memset(dst, c, n)`, which is not part
of `mm.c`; "byte-wise set ... side-effect-free beyond the written range". -/
def memset (m : Mem) (dst c : Nat) : Nat → Mem
  | 0 => m
  | n + 1 => memset (Function.update m dst (c % 256)) (dst + 1) c n

/-! ## Allocator state -/

/-- The heap bytes, the state of the growth primitive (`mem_brk`, `mem_max_addr` and the
pointer value it returns on failure) and the three globals of `mm.c`. -/
structure State where
  /-- the bytes of the managed region -/
  mem : Mem
  /-- current end of the managed region -/
  mem_brk : Nat
  /-- ceiling of the backing store -/
  mem_max_addr : Nat
  /-- pointer value that the growth primitive returns when it fails -/
  sbrk_failed : Nat
  /-- global `prologue` -/
  prologue : Nat
  /-- global `free_head` -/
  free_head : Nat
  /-- global `free_last` -/
  free_last : Nat

/-- Modelled from the spec: the growth primitive `mem_sbrk` of `memlib`, which is not part
of `mm.c`: "extends the managed region by `increment` bytes, returns a pointer to the start
of the new region; fails when the backing store's maximum size is reached". The spec does
not fix the pointer value returned on failure; it is the field `sbrk_failed` of the state
(`(void*)-1`, that is `2 ^ 64 - 1`, for the customary `memlib`). -/
def mem_sbrk (s : State) (incr : Nat) : Nat × State :=
  if s.mem_brk + incr ≤ s.mem_max_addr then
    (s.mem_brk, { s with mem_brk := s.mem_brk + incr })
  else
    (s.sbrk_failed, s)

/-! ## The functions of `mm.c` -/

/-- `mm_init`: creates the prologue header and points the free list at it. The result of
`mem_sbrk` is used unchecked and the function returns `true` unconditionally. -/
def mm_init (s : State) : Bool × State :=
  let r := mem_sbrk s (align SIZEOF_HEADER)
  let p := r.1
  let m1 := set_size r.2.mem p (align SIZEOF_HEADER)
  let m2 := set_next m1 p p
  let m3 := set_prev m2 p p
  let m4 := set_free m3 p 1
  (true, { r.2 with mem := m4, prologue := p, free_head := p, free_last := p })

/-- The block size `asize` that `malloc` computes for a request of `size` bytes:
`align(align(sizeof(struct header_t)) + size)` in `size_t` arithmetic. -/
def asize (size : Nat) : Nat := align ((align SIZEOF_HEADER + size) % WORD)

/-- `malloc`: a zero request returns `NULL`; every other request grows the heap by `asize`
and returns the address `align(sizeof(struct header_t))` bytes past what `mem_sbrk`
returned. Nothing is written to the heap and the free list is not consulted (the free-list
branch of the source is commented out). -/
def malloc (s : State) (size : Nat) : Nat × State :=
  if size = 0 then (NULL, s)
  else
    let r := mem_sbrk s (asize size)
    ((r.1 + align SIZEOF_HEADER) % WORD, r.2)

/-- `free`: a no-op on `NULL`; otherwise the header `sizeof(struct header_t)` bytes before
`ptr` gets `free = 0` and is linked in front of `free_head`. -/
def free (s : State) (ptr : Nat) : State :=
  if ptr = NULL then s
  else
    let freed_block := (WORD + ptr - SIZEOF_HEADER) % WORD
    let m1 := set_free s.mem freed_block 0
    let m2 := set_next m1 freed_block s.free_head
    let m3 := set_prev m2 freed_block s.free_last
    let m4 := set_prev m3 s.free_head freed_block
    let m5 := set_next m4 s.free_last freed_block
    { s with mem := m5, free_head := freed_block }

/-- `realloc`: for `oldptr == NULL` it calls `malloc(size)` and drops the result; for
`size == 0` it calls `free(oldptr)`; both of these paths fall through to `return NULL`.
Otherwise it allocates, copies `size` bytes and returns the new pointer. -/
def realloc (s : State) (oldptr size : Nat) : Nat × State :=
  if oldptr = NULL then (NULL, (malloc s size).2)
  else if size = 0 then (NULL, free s oldptr)
  else
    let r := malloc s size
    (r.1, { r.2 with mem := memcpy r.2.mem r.1 oldptr size })

/-- `calloc`: multiplies in `size_t` arithmetic, allocates, and zero-fills when the result
is not `NULL`. -/
def calloc (s : State) (nmemb size : Nat) : Nat × State :=
  let size1 := (size * nmemb) % WORD
  let r := malloc s size1
  if r.1 ≠ NULL then (r.1, { r.2 with mem := memset r.2.mem r.1 0 size1 })
  else (r.1, r.2)

/-! ## Well-formed free lists -/

/-- Two header addresses whose 32-byte headers do not overlap. -/
def Sep (a b : Nat) : Prop := a + SIZEOF_HEADER ≤ b ∨ b + SIZEOF_HEADER ≤ a

/-- The same header, or two headers that do not overlap. -/
def Apart (a b : Nat) : Prop := a = b ∨ Sep a b

/-- Last element of the non-empty list `a :: rest`. -/
def lastCell : Nat → List Nat → Nat
  | a, [] => a
  | _, b :: rest => lastCell b rest

/-- `Chain m first a rest`: starting at header `a`, the `next` links run through `rest` in
order and from its last element back to `first`, and every `prev` link is the inverse. -/
def Chain (m : Mem) (first : Nat) : Nat → List Nat → Prop
  | a, [] => get_next m a = first ∧ get_prev m first = a
  | a, b :: rest => get_next m a = b ∧ get_prev m b = a ∧ Chain m first b rest

/-- `FreeList s cells`: the free list of state `s` is circular and doubly linked and its
members, in traversal order from `free_head` to `free_last`, are `cells`; the members are
64-bit addresses of pairwise non-overlapping headers. -/
def FreeList (s : State) : List Nat → Prop
  | [] => False
  | c :: rest =>
    s.free_head = c ∧ s.free_last = lastCell c rest ∧ Chain s.mem c c rest ∧
      List.Pairwise Sep (c :: rest) ∧ ∀ x ∈ c :: rest, x < WORD

/-- The headers met by following `next` links `n` times, starting at `a`. -/
def walk (m : Mem) (a : Nat) : Nat → List Nat
  | 0 => []
  | n + 1 => a :: walk m (get_next m a) n

/-- The header that `free(ptr)` recovers: `ptr - sizeof(struct header_t)`. -/
def header_of (ptr : Nat) : Nat := (WORD + ptr - SIZEOF_HEADER) % WORD

/-! ## Call histories -/

/-- Whether a growth request of `incr` bytes succeeds in state `s`. -/
def sbrk_ok (s : State) (incr : Nat) : Bool := decide (s.mem_brk + incr ≤ s.mem_max_addr)

/-- Whether every growth request made by `malloc(size)` in state `s` succeeds (a zero
request makes none). -/
def malloc_ok (s : State) (size : Nat) : Bool := decide (size = 0) || sbrk_ok s (asize size)

/-- Largest request for which `asize` is computed without wrap-around: `2 ^ 64 - 48`. -/
def MAX_REQUEST : Nat := WORD - 48

/-- What one `malloc` call of a run handed out: the pointer, the requested size and the
end of the managed region right after the call. -/
structure Grant where
  /-- returned pointer -/
  ptr : Nat
  /-- requested size -/
  size : Nat
  /-- heap end after the call -/
  region_end : Nat
deriving DecidableEq

/-- Runs `malloc` on each size in turn, with no `free` in between. -/
def malloc_all (s : State) : List Nat → List Grant × State
  | [] => ([], s)
  | n :: ns =>
    let r := malloc s n
    let rs := malloc_all r.2 ns
    ({ ptr := r.1, size := n, region_end := r.2.mem_brk } :: rs.1, rs.2)

/-- Every growth request of the run `malloc_all s sizes` succeeds. -/
def malloc_all_ok (s : State) : List Nat → Bool
  | [] => true
  | n :: ns => malloc_ok s n && malloc_all_ok (malloc s n).2 ns

/-- The payload regions `[ptr, ptr + size)` of two grants have no byte in common. -/
def Grant.disjoint (g h : Grant) : Prop :=
  g.size = 0 ∨ h.size = 0 ∨ g.ptr + g.size ≤ h.ptr ∨ h.ptr + h.size ≤ g.ptr

/-- The grant has `size` usable bytes: its payload ends inside the region obtained from
growth and `asize` covers header and payload. -/
def Grant.large_enough (g : Grant) : Prop :=
  g.size = 0 ∨ (g.ptr + g.size ≤ g.region_end ∧ SIZEOF_HEADER + g.size ≤ asize g.size)

/-- The four operations of the allocator as calls of a history. -/
inductive Call where
  | malloc (size : Nat)
  | free (ptr : Nat)
  | realloc (oldptr size : Nat)
  | calloc (nmemb size : Nat)
deriving DecidableEq

/-- Performs one call; the result is the returned pointer (`none` for `free`, which
returns nothing) and the new state. -/
def call (s : State) : Call → Option Nat × State
  | .malloc size => ((malloc s size).1, (malloc s size).2)
  | .free ptr => (none, free s ptr)
  | .realloc oldptr size => ((realloc s oldptr size).1, (realloc s oldptr size).2)
  | .calloc nmemb size => ((calloc s nmemb size).1, (calloc s nmemb size).2)

/-- Performs a history of calls, collecting the results. -/
def run (s : State) : List Call → List (Option Nat) × State
  | [] => ([], s)
  | c :: cs =>
    let r := call s c
    let rs := run r.2 cs
    (r.1 :: rs.1, rs.2)

/-- Every growth request made by the call succeeds. -/
def call_ok (s : State) : Call → Bool
  | .malloc size => malloc_ok s size
  | .free _ => true
  | .realloc oldptr size =>
    if oldptr = NULL then malloc_ok s size else if size = 0 then true else malloc_ok s size
  | .calloc nmemb size => malloc_ok s ((size * nmemb) % WORD)

/-- Every growth request made during the history succeeds. -/
def run_ok (s : State) : List Call → Bool
  | [] => true
  | c :: cs => call_ok s c && run_ok (call s c).2 cs

/-- A history of `malloc` and `free` calls that respects the contract: every request is at
most `MAX_REQUEST` and its growth succeeds, and `free` is only called on a pointer that
`malloc` returned and that has not been released since. `live` lists the pointers handed
out and not yet released. -/
def valid (s : State) (live : List Nat) : List Call → Bool
  | [] => true
  | .malloc size :: cs =>
    decide (size ≤ MAX_REQUEST) && malloc_ok s size &&
      valid (malloc s size).2 (if size = 0 then live else (malloc s size).1 :: live) cs
  | .free ptr :: cs => decide (ptr ∈ live) && valid (free s ptr) (live.erase ptr) cs
  | _ :: _ => false

/-- A 4096-byte backing store at address 4096 holding zero bytes, before `mm_init` (the
three globals are still null); the growth primitive returns `(void*)-1` on failure. -/
def heap0 : State :=
  { mem := fun _ => 0, mem_brk := 4096, mem_max_addr := 8192, sbrk_failed := 2 ^ 64 - 1,
    prologue := 0, free_head := 0, free_last := 0 }

/-- The allocator invariant kept by valid histories of `malloc` and `free`. `live` lists
the pointers handed out and not yet released, `fl` the headers of the released blocks, most
recently released first. The heap lies in the 64-bit address space, the free list is the
well-formed list `fl` followed by the prologue, every released header has `free = 0` and
the prologue has `free = 1`, and the headers of all blocks lie between prologue and heap
end without overlapping. -/
def Inv (s : State) (live fl : List Nat) : Prop :=
  s.mem_max_addr < WORD ∧ s.mem_brk ≤ s.mem_max_addr ∧ s.prologue + 32 ≤ s.mem_brk ∧
  FreeList s (fl ++ [s.prologue]) ∧
  (∀ b ∈ fl, get_free s.mem b = 0) ∧ get_free s.mem s.prologue = 1 ∧
  (∀ b ∈ fl, s.prologue + 32 ≤ b ∧ b + 32 ≤ s.mem_brk) ∧
  (∀ p ∈ live, s.prologue + 64 ≤ p ∧ p ≤ s.mem_brk) ∧
  live.Nodup ∧
  (∀ p ∈ live, ∀ q ∈ live, p ≠ q → Sep (p - 32) (q - 32)) ∧
  (∀ p ∈ live, ∀ b ∈ fl, Sep (p - 32) b)

/-- The pointers handed out and not yet released after a history of `malloc` and `free`
calls, given those of its start (the bookkeeping of `valid`). -/
def live_after (s : State) (live : List Nat) : List Call → List Nat
  | [] => live
  | .malloc size :: cs =>
    live_after (malloc s size).2 (if size = 0 then live else (malloc s size).1 :: live) cs
  | .free ptr :: cs => live_after (free s ptr) (live.erase ptr) cs
  | _ :: _ => live

/-! ## `find_fit` -/

/-- The `while` loop of `find_fit`, run for at most `fuel` iterations from the loop state
`(fitfound, current)`. The comparison `current->size >+ asize` is `>` applied to `+asize`,
that is a strict `size > asize`, and `current` advances after every test, also after a
successful one. The result is `none` when the loop is still running after `fuel`
iterations; otherwise it holds the final `fitfound` and `current` and, as a record of the
traversal, the headers whose size the loop examined, in order. -/
def find_fit_loop (s : State) (asize : Nat) : Nat → Bool → Nat → Option (Bool × Nat × List Nat)
  | 0, fitfound, current =>
    if fitfound = false ∧ current ≠ s.free_last then none else some (fitfound, current, [])
  | fuel + 1, fitfound, current =>
    if fitfound = false ∧ current ≠ s.free_last then
      (find_fit_loop s asize fuel (decide (asize < get_size s.mem current))
        (get_next s.mem current)).map fun r => (r.1, r.2.1, current :: r.2.2)
    else some (fitfound, current, [])

/-- `find_fit`: runs the loop from `free_head` with `fitfound = false` and returns the
final `current` when a fit was found and `NULL` otherwise (`none`: the loop did not stop
within `fuel` iterations). -/
def find_fit (s : State) (asize fuel : Nat) : Option Nat :=
  (find_fit_loop s asize fuel false s.free_head).map fun r => if r.1 = true then r.2.1 else NULL

/-- What the loop of `find_fit` computes on headers `a :: rest` that are linked in this
order and end in `free_last`: it stops after the first header before the last whose size
exceeds `asize`, with `current` on the successor of that header, or on the last header
with no fit. -/
def scan (m : Mem) (asize : Nat) : Nat → List Nat → Bool × Nat × List Nat
  | a, [] => (false, a, [])
  | a, b :: rest =>
    if asize < get_size m a then (true, b, [a])
    else ((scan m asize b rest).1, (scan m asize b rest).2.1, a :: (scan m asize b rest).2.2)

/-- The backing store of `heap0` whose not yet initialised bytes at address 4128 hold the
8-byte value 64, where the size field of the first block's header will lie. -/
def heap2 : State := { heap0 with mem := set_size (fun _ => 0) 4128 64 }

/-- The state reached on `heap0` by `mm_init`, `malloc(2^64 - 31)` (which returns 4160 for a
block of 16 bytes at 4128), `malloc(1)` (which returns 4176 for the block at 4144),
`free(4176)` and `free(4160)`: the two headers overlap. -/
def heap_overlap : State :=
  (run (mm_init heap0).2
    [Call.malloc (2 ^ 64 - 31), Call.malloc 1, Call.free 4176, Call.free 4160]).2

/-! ## Memory lemmas -/

theorem store_outside (n : Nat) : ∀ (m : Mem) (a v x : Nat), (x < a ∨ a + n ≤ x) →
    store m a n v x = m x := by
  induction n with
  | zero => intro m a v x _; rfl
  | succ n ih =>
    intro m a v x hx
    show store (Function.update m a (v % 256)) (a + 1) n (v / 256) x = m x
    rw [ih _ _ _ _ (by omega), Function.update_noteq (by omega)]

theorem load_congr (k : Nat) : ∀ (m1 m2 : Mem) (b : Nat),
    (∀ x, b ≤ x → x < b + k → m1 x = m2 x) → load m1 b k = load m2 b k := by
  induction k with
  | zero => intro m1 m2 b _; rfl
  | succ k ih =>
    intro m1 m2 b h
    show m1 b % 256 + 256 * load m1 (b + 1) k = m2 b % 256 + 256 * load m2 (b + 1) k
    rw [h b (le_refl _) (by omega), ih m1 m2 (b + 1) (fun x h1 h2 => h x (by omega) (by omega))]

theorem load_store_disjoint (m : Mem) (a n v b k : Nat) (h : a + n ≤ b ∨ b + k ≤ a) :
    load (store m a n v) b k = load m b k :=
  load_congr k _ _ b (fun x h1 h2 => store_outside n m a v x (by omega))

theorem load_store_same (n : Nat) : ∀ (m : Mem) (a v : Nat),
    load (store m a n v) a n = v % 256 ^ n := by
  induction n with
  | zero => intro m a v; simp [load, Nat.mod_one]
  | succ n ih =>
    intro m a v
    show store (Function.update m a (v % 256)) (a + 1) n (v / 256) a % 256
        + 256 * load (store (Function.update m a (v % 256)) (a + 1) n (v / 256)) (a + 1) n
      = v % 256 ^ (n + 1)
    rw [store_outside n _ _ _ _ (Or.inl (Nat.lt_succ_self a)), ih, Function.update_same,
      Nat.mod_mod, pow_succ', Nat.mod_mul]

theorem load_lt (n : Nat) : ∀ (m : Mem) (a : Nat), load m a n < 256 ^ n := by
  induction n with
  | zero => intro m a; simp [load]
  | succ n ih =>
    intro m a
    show m a % 256 + 256 * load m (a + 1) n < 256 ^ (n + 1)
    have h1 := ih m (a + 1)
    have h2 : m a % 256 < 256 := Nat.mod_lt _ (by norm_num)
    rw [pow_succ]
    omega

theorem memcpy_outside (n : Nat) : ∀ (m : Mem) (dst src x : Nat), (x < dst ∨ dst + n ≤ x) →
    memcpy m dst src n x = m x := by
  induction n with
  | zero => intro m dst src x _; rfl
  | succ n ih =>
    intro m dst src x hx
    show memcpy (Function.update m dst (m src)) (dst + 1) (src + 1) n x = m x
    rw [ih _ _ _ _ (by omega), Function.update_noteq (by omega)]

/-! ## Header fields -/

theorem get_set_other (m : Mem) (a b v o1 k1 o2 k2 : Nat) (h : Apart a b)
    (h1 : o1 + k1 ≤ o2 ∨ o2 + k2 ≤ o1) (hk1 : o1 + k1 ≤ 32) (hk2 : o2 + k2 ≤ 32) :
    load (store m (a + o1) k1 v) (b + o2) k2 = load m (b + o2) k2 := by
  apply load_store_disjoint
  simp only [Apart, Sep, SIZEOF_HEADER] at h
  omega

theorem get_set_sep (m : Mem) (a b v o1 k1 o2 k2 : Nat) (h : Sep a b)
    (hk1 : o1 + k1 ≤ 32) (hk2 : o2 + k2 ≤ 32) :
    load (store m (a + o1) k1 v) (b + o2) k2 = load m (b + o2) k2 := by
  apply load_store_disjoint
  simp only [Sep, SIZEOF_HEADER] at h
  omega

theorem get_next_set_next (m : Mem) (a v : Nat) (hv : v < WORD) :
    get_next (set_next m a v) a = v := by
  unfold get_next set_next
  rw [load_store_same]
  exact Nat.mod_eq_of_lt (by rw [WORD] at hv; exact hv)

theorem get_prev_set_prev (m : Mem) (a v : Nat) (hv : v < WORD) :
    get_prev (set_prev m a v) a = v := by
  unfold get_prev set_prev
  rw [load_store_same]
  exact Nat.mod_eq_of_lt (by rw [WORD] at hv; exact hv)

theorem get_size_set_size (m : Mem) (a v : Nat) (hv : v < WORD) :
    get_size (set_size m a v) a = v := by
  unfold get_size set_size
  rw [load_store_same]
  exact Nat.mod_eq_of_lt (by rw [WORD] at hv; exact hv)

theorem get_free_set_free (m : Mem) (a v : Nat) (hv : v < 2 ^ 32) :
    get_free (set_free m a v) a = v := by
  unfold get_free set_free
  rw [load_store_same]
  exact Nat.mod_eq_of_lt hv

theorem get_next_set_next_sep (m : Mem) (a b v : Nat) (h : Sep a b) :
    get_next (set_next m a v) b = get_next m b :=
  get_set_sep m a b v 8 8 8 8 h (by omega) (by omega)

theorem get_prev_set_prev_sep (m : Mem) (a b v : Nat) (h : Sep a b) :
    get_prev (set_prev m a v) b = get_prev m b :=
  get_set_sep m a b v 16 8 16 8 h (by omega) (by omega)

theorem get_free_set_free_sep (m : Mem) (a b v : Nat) (h : Sep a b) :
    get_free (set_free m a v) b = get_free m b :=
  get_set_sep m a b v 24 4 24 4 h (by omega) (by omega)

theorem get_next_set_prev (m : Mem) (a b v : Nat) (h : Apart a b) :
    get_next (set_prev m a v) b = get_next m b :=
  get_set_other m a b v 16 8 8 8 h (by omega) (by omega) (by omega)

theorem get_next_set_free (m : Mem) (a b v : Nat) (h : Apart a b) :
    get_next (set_free m a v) b = get_next m b :=
  get_set_other m a b v 24 4 8 8 h (by omega) (by omega) (by omega)

theorem get_prev_set_next (m : Mem) (a b v : Nat) (h : Apart a b) :
    get_prev (set_next m a v) b = get_prev m b :=
  get_set_other m a b v 8 8 16 8 h (by omega) (by omega) (by omega)

theorem get_prev_set_free (m : Mem) (a b v : Nat) (h : Apart a b) :
    get_prev (set_free m a v) b = get_prev m b :=
  get_set_other m a b v 24 4 16 8 h (by omega) (by omega) (by omega)

theorem get_free_set_next (m : Mem) (a b v : Nat) (h : Apart a b) :
    get_free (set_next m a v) b = get_free m b :=
  get_set_other m a b v 8 8 24 4 h (by omega) (by omega) (by omega)

theorem get_free_set_prev (m : Mem) (a b v : Nat) (h : Apart a b) :
    get_free (set_prev m a v) b = get_free m b :=
  get_set_other m a b v 16 8 24 4 h (by omega) (by omega) (by omega)

theorem get_size_set_next (m : Mem) (a b v : Nat) (h : Apart a b) :
    get_size (set_next m a v) b = get_size m b := by
  have := get_set_other m a b v 8 8 0 8 h (by omega) (by omega) (by omega)
  simpa [get_size, set_next] using this

theorem get_size_set_prev (m : Mem) (a b v : Nat) (h : Apart a b) :
    get_size (set_prev m a v) b = get_size m b := by
  have := get_set_other m a b v 16 8 0 8 h (by omega) (by omega) (by omega)
  simpa [get_size, set_prev] using this

theorem get_size_set_free (m : Mem) (a b v : Nat) (h : Apart a b) :
    get_size (set_free m a v) b = get_size m b := by
  have := get_set_other m a b v 24 4 0 8 h (by omega) (by omega) (by omega)
  simpa [get_size, set_free] using this

theorem Sep.flip {a b : Nat} (h : Sep a b) : Sep b a := Or.symm h

theorem Apart.swap {a b : Nat} (h : Apart a b) : Apart b a :=
  h.elim (fun e => Or.inl e.symm) (fun e => Or.inr e.flip)

theorem Sep.apart {a b : Nat} (h : Sep a b) : Apart a b := Or.inr h

theorem header_of_lt (p : Nat) : header_of p < WORD :=
  Nat.mod_lt _ (by norm_num [WORD])

/-! ## The effect of `free` on the heap -/

theorem free_null (s : State) : free s NULL = s := by
  simp [free]

theorem free_mem (s : State) (p : Nat) (hp : p ≠ NULL) :
    (free s p).mem =
      set_next (set_prev (set_prev (set_next (set_free s.mem (header_of p) 0) (header_of p)
        s.free_head) (header_of p) s.free_last) s.free_head (header_of p)) s.free_last
        (header_of p) := by
  simp [free, hp, header_of]

theorem free_head_eq (s : State) (p : Nat) (hp : p ≠ NULL) :
    (free s p).free_head = header_of p := by
  simp [free, hp, header_of]

theorem free_last_eq (s : State) (p : Nat) : (free s p).free_last = s.free_last := by
  unfold free; split <;> rfl

theorem free_prologue_eq (s : State) (p : Nat) : (free s p).prologue = s.prologue := by
  unfold free; split <;> rfl

theorem free_brk_eq (s : State) (p : Nat) : (free s p).mem_brk = s.mem_brk := by
  unfold free; split <;> rfl

theorem free_max_eq (s : State) (p : Nat) : (free s p).mem_max_addr = s.mem_max_addr := by
  unfold free; split <;> rfl

theorem free_failed_eq (s : State) (p : Nat) : (free s p).sbrk_failed = s.sbrk_failed := by
  unfold free; split <;> rfl

theorem free_next_new (s : State) (p : Nat) (hp : p ≠ NULL) (hh : Sep (header_of p) s.free_head)
    (hl : Sep (header_of p) s.free_last) (hlt : s.free_head < WORD) :
    get_next (free s p).mem (header_of p) = s.free_head := by
  rw [free_mem s p hp, get_next_set_next_sep _ _ _ _ hl.flip,
    get_next_set_prev _ _ _ _ hh.flip.apart, get_next_set_prev _ _ _ _ (Or.inl rfl),
    get_next_set_next _ _ _ hlt]

theorem free_prev_new (s : State) (p : Nat) (hp : p ≠ NULL) (hh : Sep (header_of p) s.free_head)
    (hl : Sep (header_of p) s.free_last) (hlt : s.free_last < WORD) :
    get_prev (free s p).mem (header_of p) = s.free_last := by
  rw [free_mem s p hp, get_prev_set_next _ _ _ _ hl.flip.apart,
    get_prev_set_prev_sep _ _ _ _ hh.flip, get_prev_set_prev _ _ _ hlt]

theorem free_prev_head (s : State) (p : Nat) (hp : p ≠ NULL)
    (hhl : Apart s.free_head s.free_last) :
    get_prev (free s p).mem s.free_head = header_of p := by
  rw [free_mem s p hp, get_prev_set_next _ _ _ _ hhl.swap,
    get_prev_set_prev _ _ _ (header_of_lt p)]

theorem free_next_last (s : State) (p : Nat) (hp : p ≠ NULL) :
    get_next (free s p).mem s.free_last = header_of p := by
  rw [free_mem s p hp, get_next_set_next _ _ _ (header_of_lt p)]

theorem free_free_new (s : State) (p : Nat) (hp : p ≠ NULL) (hh : Sep (header_of p) s.free_head)
    (hl : Sep (header_of p) s.free_last) :
    get_free (free s p).mem (header_of p) = 0 := by
  rw [free_mem s p hp, get_free_set_next _ _ _ _ hl.flip.apart,
    get_free_set_prev _ _ _ _ hh.flip.apart, get_free_set_prev _ _ _ _ (Or.inl rfl),
    get_free_set_next _ _ _ _ (Or.inl rfl), get_free_set_free _ _ _ (by norm_num)]

theorem free_next_frame (s : State) (p x : Nat) (hp : p ≠ NULL) (hx : Sep x (header_of p))
    (hxh : Apart x s.free_head) (hxl : Sep x s.free_last) :
    get_next (free s p).mem x = get_next s.mem x := by
  rw [free_mem s p hp, get_next_set_next_sep _ _ _ _ hxl.flip,
    get_next_set_prev _ _ _ _ hxh.swap, get_next_set_prev _ _ _ _ hx.flip.apart,
    get_next_set_next_sep _ _ _ _ hx.flip, get_next_set_free _ _ _ _ hx.flip.apart]

theorem free_prev_frame (s : State) (p x : Nat) (hp : p ≠ NULL) (hx : Sep x (header_of p))
    (hxh : Sep x s.free_head) (hxl : Apart x s.free_last) :
    get_prev (free s p).mem x = get_prev s.mem x := by
  rw [free_mem s p hp, get_prev_set_next _ _ _ _ hxl.swap,
    get_prev_set_prev_sep _ _ _ _ hxh.flip, get_prev_set_prev_sep _ _ _ _ hx.flip,
    get_prev_set_next _ _ _ _ hx.flip.apart, get_prev_set_free _ _ _ _ hx.flip.apart]

theorem free_free_frame (s : State) (p x : Nat) (hp : p ≠ NULL) (hx : Sep x (header_of p))
    (hxh : Apart x s.free_head) (hxl : Apart x s.free_last) :
    get_free (free s p).mem x = get_free s.mem x := by
  rw [free_mem s p hp, get_free_set_next _ _ _ _ hxl.swap,
    get_free_set_prev _ _ _ _ hxh.swap, get_free_set_prev _ _ _ _ hx.flip.apart,
    get_free_set_next _ _ _ _ hx.flip.apart, get_free_set_free_sep _ _ _ _ hx.flip]

theorem free_size_frame (s : State) (p x : Nat) (hp : p ≠ NULL) (hx : Apart x (header_of p))
    (hxh : Apart x s.free_head) (hxl : Apart x s.free_last) :
    get_size (free s p).mem x = get_size s.mem x := by
  rw [free_mem s p hp, get_size_set_next _ _ _ _ hxl.swap,
    get_size_set_prev _ _ _ _ hxh.swap, get_size_set_prev _ _ _ _ hx.swap,
    get_size_set_next _ _ _ _ hx.swap, get_size_set_free _ _ _ _ hx.swap]

/-! ## Circular chains -/

theorem lastCell_mem (rest : List Nat) : ∀ a, lastCell a rest ∈ a :: rest := by
  induction rest with
  | nil => intro a; simp [lastCell]
  | cons b rest ih => intro a; exact List.mem_cons_of_mem _ (ih b)

/-- Re-targeting a chain: if `next` is preserved on every header but the last, `prev` on
every header of the tail, and the last header is linked to the new first header `f2`,
then a chain that closed at `f1` becomes a chain that closes at `f2`. -/
theorem chain_retarget (m1 m2 : Mem) (f1 f2 l : Nat)
    (hnext : ∀ x, Sep x l → Sep x f2 → Apart x f1 → get_next m2 x = get_next m1 x)
    (hprev : ∀ x, Sep x f1 → Sep x f2 → Apart x l → get_prev m2 x = get_prev m1 x)
    (hl : get_next m2 l = f2) (hf : get_prev m2 f2 = l) :
    ∀ (rest : List Nat) (a : Nat), List.Pairwise Sep (a :: rest) → lastCell a rest = l →
      (∀ x ∈ rest, Sep x f1) → (∀ x ∈ a :: rest, Sep x f2) → Apart a f1 →
      Chain m1 f1 a rest → Chain m2 f2 a rest := by
  intro rest
  induction rest with
  | nil =>
    intro a _ hlast _ _ _ _
    simp only [lastCell] at hlast
    subst hlast
    exact ⟨hl, hf⟩
  | cons b rest ih =>
    intro a hpw hlast hf1 hf2 haf hc
    obtain ⟨hn, hpv, hc⟩ := hc
    have hpw2 := List.pairwise_cons.mp hpw
    have hlm : l ∈ b :: rest := by
      have := lastCell_mem rest b
      simp only [lastCell] at hlast
      rwa [hlast] at this
    have hal : Sep a l := hpw2.1 l hlm
    have hbf1 : Sep b f1 := hf1 b (List.mem_cons_self _ _)
    have hbl : Apart b l := by
      rcases List.mem_cons.mp hlm with h | h
      · exact Or.inl h.symm
      · exact Or.inr ((List.pairwise_cons.mp hpw2.2).1 l h)
    refine ⟨?_, ?_, ?_⟩
    · rw [hnext a hal (hf2 a (List.mem_cons_self _ _)) haf, hn]
    · rw [hprev b hbf1 (hf2 b (List.mem_cons_of_mem _ (List.mem_cons_self _ _))) hbl, hpv]
    · exact ih b hpw2.2 (by simpa [lastCell] using hlast)
        (fun x hx => hf1 x (List.mem_cons_of_mem _ hx))
        (fun x hx => hf2 x (List.mem_cons_of_mem _ hx)) hbf1.apart hc

theorem chain_links (m : Mem) (first : Nat) : ∀ (rest : List Nat) (a : Nat),
    Chain m first a rest →
      (∀ B ∈ a :: rest, get_prev m (get_next m B) = B) ∧
      (∀ B ∈ rest, get_next m (get_prev m B) = B) ∧
      get_next m (get_prev m first) = first := by
  intro rest
  induction rest with
  | nil =>
    intro a hc
    obtain ⟨hn, hp⟩ := hc
    refine ⟨?_, ?_, ?_⟩
    · intro B hB
      rw [List.mem_singleton.mp hB, hn, hp]
    · intro B hB
      cases hB
    · rw [hp, hn]
  | cons b rest ih =>
    intro a hc
    obtain ⟨hn, hp, hc⟩ := hc
    obtain ⟨i1, i2, i3⟩ := ih b hc
    refine ⟨?_, ?_, i3⟩
    · intro B hB
      rcases List.mem_cons.mp hB with h | h
      · rw [h, hn, hp]
      · exact i1 B h
    · intro B hB
      rcases List.mem_cons.mp hB with h | h
      · rw [h, hp, hn]
      · exact i2 B h

theorem chain_walk (m : Mem) (first : Nat) : ∀ (rest : List Nat) (a : Nat),
    Chain m first a rest →
      walk m a (rest.length + 1) = a :: rest ∧ get_next m (lastCell a rest) = first := by
  intro rest
  induction rest with
  | nil =>
    intro a hc
    exact ⟨rfl, hc.1⟩
  | cons b rest ih =>
    intro a hc
    obtain ⟨hn, _, hc⟩ := hc
    obtain ⟨i1, i2⟩ := ih b hc
    refine ⟨?_, i2⟩
    show a :: walk m (get_next m a) (rest.length + 1) = a :: b :: rest
    rw [hn, i1]

/-- In a well-formed free list `next` and `prev` are inverse to each other on every
member. -/
theorem freeList_links (s : State) (cells : List Nat) (h : FreeList s cells) :
    ∀ B ∈ cells, get_prev s.mem (get_next s.mem B) = B ∧
      get_next s.mem (get_prev s.mem B) = B := by
  cases cells with
  | nil => exact h.elim
  | cons c rest =>
    obtain ⟨_, _, hc, _, _⟩ := h
    obtain ⟨i1, i2, i3⟩ := chain_links s.mem c rest c hc
    intro B hB
    refine ⟨i1 B hB, ?_⟩
    rcases List.mem_cons.mp hB with h | h
    · rw [h]; exact i3
    · exact i2 B h

/-- Following `next` from `free_head` once around a well-formed free list visits exactly
its members, in order, and the link after `free_last` leads back to `free_head`. -/
theorem freeList_walk (s : State) (cells : List Nat) (h : FreeList s cells) :
    walk s.mem s.free_head cells.length = cells ∧
      get_next s.mem s.free_last = s.free_head := by
  cases cells with
  | nil => exact h.elim
  | cons c rest =>
    obtain ⟨h1, h2, hc, _, _⟩ := h
    rw [h1, h2]
    exact chain_walk s.mem c rest c hc

/-- Releasing a block whose header overlaps no member puts it in front of a well-formed
free list and keeps the list well formed. -/
theorem freeList_insert (s : State) (cells : List Nat) (p : Nat) (hwf : FreeList s cells)
    (hp : p ≠ NULL) (hsep : ∀ c ∈ cells, Sep (header_of p) c) :
    FreeList (free s p) (header_of p :: cells) := by
  cases cells with
  | nil => exact hwf.elim
  | cons c rest =>
    obtain ⟨h1, h2, hc, hpw, hlt⟩ := hwf
    have hpw2 := List.pairwise_cons.mp hpw
    have hlm : s.free_last ∈ c :: rest := by rw [h2]; exact lastCell_mem rest c
    have hfh : Sep (header_of p) s.free_head := by
      rw [h1]; exact hsep c (List.mem_cons_self _ _)
    have hfl : Sep (header_of p) s.free_last := hsep _ hlm
    have hhl : Apart s.free_head s.free_last := by
      rw [h1]
      rcases List.mem_cons.mp hlm with h | h
      · exact Or.inl h.symm
      · exact Or.inr (hpw2.1 _ h)
    refine ⟨free_head_eq s p hp, ?_, ⟨?_, ?_, ?_⟩, ?_, ?_⟩
    · rw [free_last_eq, h2]; simp only [lastCell]
    · rw [free_next_new s p hp hfh hfl (by rw [h1]; exact hlt c (List.mem_cons_self _ _)), h1]
    · rw [← h1]; exact free_prev_head s p hp hhl
    · refine chain_retarget s.mem (free s p).mem c (header_of p) s.free_last ?_ ?_
        (free_next_last s p hp)
        (free_prev_new s p hp hfh hfl (hlt _ hlm)) rest c hpw h2.symm
        (fun x hx => (hpw2.1 x hx).flip) (fun x hx => (hsep x hx).flip) (Or.inl rfl) hc
      · intro x hxl hxf hxc
        exact free_next_frame s p x hp hxf (by rw [h1]; exact hxc) hxl
      · intro x hxc hxf hxl
        exact free_prev_frame s p x hp hxf (by rw [h1]; exact hxc) hxl
    · exact List.pairwise_cons.mpr ⟨hsep, hpw⟩
    · intro x hx
      rcases List.mem_cons.mp hx with h | h
      · rw [h]; exact header_of_lt p
      · exact hlt x h

/-! ## Size arithmetic and `malloc` -/

theorem align_header : align SIZEOF_HEADER = 32 := by
  simp [align, SIZEOF_HEADER, ALIGNMENT, WORD]

theorem asize_eq (size : Nat) :
    asize size = (16 * (((32 + size) % 2 ^ 64 + 16 - 1) % 2 ^ 64 / 16)) % 2 ^ 64 := by
  simp only [asize, align_header]
  simp only [align, ALIGNMENT, WORD]

theorem asize_mod (size : Nat) : asize size % 16 = 0 := by
  rw [asize_eq]; omega

theorem asize_bounds (size : Nat) (h : size ≤ MAX_REQUEST) :
    32 + size ≤ asize size ∧ asize size < 48 + size := by
  simp only [MAX_REQUEST, WORD] at h
  rw [asize_eq]; omega

theorem malloc_zero (s : State) : malloc s 0 = (NULL, s) := by
  simp only [malloc, if_pos]

theorem malloc_ok_grow (s : State) (size : Nat) (h0 : size ≠ 0) (hok : malloc_ok s size = true) :
    sbrk_ok s (asize size) = true := by
  simpa [malloc_ok, h0] using hok

theorem malloc_mem (s : State) (size : Nat) : (malloc s size).2.mem = s.mem := by
  simp only [malloc, mem_sbrk]
  split_ifs <;> simp only

theorem malloc_max_eq (s : State) (size : Nat) :
    (malloc s size).2.mem_max_addr = s.mem_max_addr := by
  simp only [malloc, mem_sbrk]
  split_ifs <;> simp only

theorem malloc_failed_eq (s : State) (size : Nat) :
    (malloc s size).2.sbrk_failed = s.sbrk_failed := by
  simp only [malloc, mem_sbrk]
  split_ifs <;> simp only

theorem malloc_prologue_eq (s : State) (size : Nat) :
    (malloc s size).2.prologue = s.prologue := by
  simp only [malloc, mem_sbrk]
  split_ifs <;> simp only

theorem malloc_free_head_eq (s : State) (size : Nat) :
    (malloc s size).2.free_head = s.free_head := by
  simp only [malloc, mem_sbrk]
  split_ifs <;> simp only

theorem malloc_free_last_eq (s : State) (size : Nat) :
    (malloc s size).2.free_last = s.free_last := by
  simp only [malloc, mem_sbrk]
  split_ifs <;> simp only

theorem malloc_brk_le (s : State) (size : Nat) : s.mem_brk ≤ (malloc s size).2.mem_brk := by
  simp only [malloc, mem_sbrk]
  split_ifs <;> simp only [le_refl, Nat.le_add_right]

theorem malloc_grow_ptr (s : State) (size : Nat) (h0 : size ≠ 0)
    (hok : sbrk_ok s (asize size) = true) : (malloc s size).1 = (s.mem_brk + 32) % WORD := by
  simp only [sbrk_ok, decide_eq_true_eq] at hok
  simp only [malloc, mem_sbrk, if_neg h0, if_pos hok, align_header]

theorem malloc_grow_brk (s : State) (size : Nat) (h0 : size ≠ 0)
    (hok : sbrk_ok s (asize size) = true) :
    (malloc s size).2.mem_brk = s.mem_brk + asize size := by
  simp only [sbrk_ok, decide_eq_true_eq] at hok
  simp only [malloc, mem_sbrk, if_neg h0, if_pos hok]

theorem malloc_fail_ptr (s : State) (size : Nat) (h0 : size ≠ 0)
    (hok : sbrk_ok s (asize size) = false) :
    (malloc s size).1 = (s.sbrk_failed + 32) % WORD := by
  simp only [sbrk_ok, decide_eq_false_iff_not] at hok
  simp only [malloc, mem_sbrk, if_neg h0, if_neg hok, align_header]

theorem malloc_fail_brk (s : State) (size : Nat)
    (hok : sbrk_ok s (asize size) = false) : (malloc s size).2.mem_brk = s.mem_brk := by
  simp only [sbrk_ok, decide_eq_false_iff_not] at hok
  simp only [malloc, mem_sbrk, if_neg hok]
  split_ifs <;> simp only

theorem malloc_fail_state (s : State) (size : Nat) (hok : sbrk_ok s (asize size) = false) :
    (malloc s size).2 = s := by
  simp only [sbrk_ok, decide_eq_false_iff_not] at hok
  simp only [malloc, mem_sbrk, if_neg hok]
  split_ifs <;> simp only

/-- Every block handed out by a run of `malloc` calls lies at or above the heap end at the
start of the run, is large enough, and is disjoint from the blocks handed out later. -/
theorem malloc_all_grants (sizes : List Nat) : ∀ (s : State), s.mem_max_addr < WORD →
    (∀ n ∈ sizes, n ≤ MAX_REQUEST) → malloc_all_ok s sizes = true →
    (∀ g ∈ (malloc_all s sizes).1, g.size ≠ 0 → s.mem_brk + 32 ≤ g.ptr ∧ g.large_enough) ∧
      List.Pairwise Grant.disjoint (malloc_all s sizes).1 := by
  induction sizes with
  | nil =>
    intro s _ _ _
    exact ⟨fun g hg _ => (by cases hg), List.Pairwise.nil⟩
  | cons n ns ih =>
    intro s hmax hsz hok
    simp only [malloc_all_ok, Bool.and_eq_true] at hok
    have hn : n ≤ MAX_REQUEST := hsz n (List.mem_cons_self _ _)
    obtain ⟨i1, i2⟩ := ih (malloc s n).2 (by rw [malloc_max_eq]; exact hmax)
      (fun x hx => hsz x (List.mem_cons_of_mem _ hx)) hok.2
    have hb := asize_bounds n hn
    have hle := malloc_brk_le s n
    have key : n ≠ 0 → (malloc s n).1 = s.mem_brk + 32 ∧
        (malloc s n).2.mem_brk = s.mem_brk + asize n := by
      intro h0
      have hg := malloc_ok_grow s n h0 hok.1
      rw [malloc_grow_ptr s n h0 hg, malloc_grow_brk s n h0 hg]
      simp only [sbrk_ok, decide_eq_true_eq] at hg
      refine ⟨Nat.mod_eq_of_lt ?_, rfl⟩
      omega
    show (∀ g ∈ _ :: (malloc_all (malloc s n).2 ns).1, _) ∧
      List.Pairwise Grant.disjoint (_ :: (malloc_all (malloc s n).2 ns).1)
    refine ⟨?_, List.pairwise_cons.mpr ⟨?_, i2⟩⟩
    · intro g hg hg0
      rcases List.mem_cons.mp hg with h | h
      · subst h
        obtain ⟨k1, k2⟩ := key hg0
        refine ⟨by dsimp only; omega, Or.inr ⟨?_, ?_⟩⟩
        · dsimp only; omega
        · dsimp only [SIZEOF_HEADER]; omega
      · obtain ⟨j1, j2⟩ := i1 g h hg0
        exact ⟨by omega, j2⟩
    · intro g hg
      by_cases h0 : n = 0
      · exact Or.inl h0
      by_cases hg0 : g.size = 0
      · exact Or.inr (Or.inl hg0)
      obtain ⟨k1, k2⟩ := key h0
      obtain ⟨j1, _⟩ := i1 g hg hg0
      refine Or.inr (Or.inr (Or.inl ?_))
      dsimp only; omega

/-! ## `mm_init` -/

theorem mm_init_max_eq (s : State) : (mm_init s).2.mem_max_addr = s.mem_max_addr := by
  simp only [mm_init, mem_sbrk]
  split_ifs <;> simp only

theorem mm_init_failed_eq (s : State) : (mm_init s).2.sbrk_failed = s.sbrk_failed := by
  simp only [mm_init, mem_sbrk]
  split_ifs <;> simp only

theorem mm_init_brk_mod (s : State) : (mm_init s).2.mem_brk % 16 = s.mem_brk % 16 := by
  simp only [mm_init, mem_sbrk, align_header]
  split_ifs
  · simp only; omega
  · simp only

theorem mm_init_heads (s : State) :
    (mm_init s).2.free_head = (mm_init s).2.prologue ∧
      (mm_init s).2.free_last = (mm_init s).2.prologue := by
  simp only [mm_init, and_self]

theorem mm_init_ok_prologue (s : State) (h : sbrk_ok s (align SIZEOF_HEADER) = true) :
    (mm_init s).2.prologue = s.mem_brk ∧ (mm_init s).2.mem_brk = s.mem_brk + 32 := by
  simp only [sbrk_ok, decide_eq_true_eq, align_header] at h
  simp only [mm_init, mem_sbrk, align_header, if_pos h, and_self]

theorem mm_init_mem (s : State) :
    (mm_init s).2.mem =
      set_free (set_prev (set_next (set_size s.mem (mm_init s).2.prologue 32)
        (mm_init s).2.prologue (mm_init s).2.prologue) (mm_init s).2.prologue
        (mm_init s).2.prologue) (mm_init s).2.prologue 1 := by
  simp only [mm_init, mem_sbrk, align_header]
  split_ifs <;> simp only

/-- The header fields that `mm_init` writes, read back from the prologue. -/
theorem mm_init_fields (s : State) (hp : (mm_init s).2.prologue < WORD) :
    get_size (mm_init s).2.mem (mm_init s).2.prologue = 32 ∧
      get_next (mm_init s).2.mem (mm_init s).2.prologue = (mm_init s).2.prologue ∧
      get_prev (mm_init s).2.mem (mm_init s).2.prologue = (mm_init s).2.prologue ∧
      get_free (mm_init s).2.mem (mm_init s).2.prologue = 1 := by
  rw [mm_init_mem]
  generalize (mm_init s).2.prologue = p at hp ⊢
  refine ⟨?_, ?_, ?_, ?_⟩
  · rw [get_size_set_free _ _ _ _ (Or.inl rfl), get_size_set_prev _ _ _ _ (Or.inl rfl),
      get_size_set_next _ _ _ _ (Or.inl rfl), get_size_set_size _ _ _ (by norm_num [WORD])]
  · rw [get_next_set_free _ _ _ _ (Or.inl rfl), get_next_set_prev _ _ _ _ (Or.inl rfl),
      get_next_set_next _ _ _ hp]
  · rw [get_prev_set_free _ _ _ _ (Or.inl rfl), get_prev_set_prev _ _ _ hp]
  · rw [get_free_set_free _ _ _ (by norm_num)]

/-- After `mm_init` the free list is the well-formed one-element list of the prologue. -/
theorem mm_init_freeList (s : State) (hp : (mm_init s).2.prologue < WORD) :
    FreeList (mm_init s).2 [(mm_init s).2.prologue] := by
  obtain ⟨_, h2, h3, _⟩ := mm_init_fields s hp
  obtain ⟨k1, k2⟩ := mm_init_heads s
  refine ⟨k1, k2, ⟨h2, h3⟩, List.pairwise_singleton _ _, ?_⟩
  intro x hx
  rw [List.mem_singleton.mp hx]
  exact hp

/-! ## Alignment of returned pointers -/

theorem malloc_aligned (s : State) (size : Nat) (hb : s.mem_brk % 16 = 0)
    (hok : malloc_ok s size = true) :
    (malloc s size).1 % 16 = 0 ∧ (malloc s size).2.mem_brk % 16 = 0 := by
  by_cases h0 : size = 0
  · subst h0
    rw [malloc_zero]
    exact ⟨rfl, hb⟩
  · have hg := malloc_ok_grow s size h0 hok
    rw [malloc_grow_ptr s size h0 hg, malloc_grow_brk s size h0 hg]
    have := asize_mod size
    simp only [WORD]
    omega

theorem realloc_fst (s : State) (oldptr size : Nat) :
    (realloc s oldptr size).1 =
      if oldptr = NULL then NULL else if size = 0 then NULL else (malloc s size).1 := by
  simp only [realloc]
  split_ifs <;> simp only

theorem realloc_brk (s : State) (oldptr size : Nat) :
    (realloc s oldptr size).2.mem_brk =
      if oldptr = NULL then (malloc s size).2.mem_brk
      else if size = 0 then s.mem_brk else (malloc s size).2.mem_brk := by
  simp only [realloc]
  split_ifs
  · simp only
  · simp only [free_brk_eq]
  · simp only

theorem calloc_fst (s : State) (nmemb size : Nat) :
    (calloc s nmemb size).1 = (malloc s ((size * nmemb) % WORD)).1 := by
  simp only [calloc]
  split_ifs <;> simp only

theorem calloc_brk (s : State) (nmemb size : Nat) :
    (calloc s nmemb size).2.mem_brk = (malloc s ((size * nmemb) % WORD)).2.mem_brk := by
  simp only [calloc]
  split_ifs <;> simp only

theorem call_aligned (s : State) (c : Call) (hb : s.mem_brk % 16 = 0)
    (hok : call_ok s c = true) :
    (∀ p, (call s c).1 = some p → p % 16 = 0) ∧ (call s c).2.mem_brk % 16 = 0 := by
  cases c with
  | malloc size =>
    simp only [call_ok] at hok
    obtain ⟨h1, h2⟩ := malloc_aligned s size hb hok
    refine ⟨?_, h2⟩
    intro p hp
    simp only [call, Option.some.injEq] at hp
    rw [← hp]; exact h1
  | free ptr =>
    refine ⟨?_, ?_⟩
    · intro p hp
      simp only [call] at hp
      cases hp
    · simp only [call, free_brk_eq]; exact hb
  | realloc oldptr size =>
    simp only [call_ok] at hok
    refine ⟨?_, ?_⟩
    · intro p hp
      simp only [call, Option.some.injEq, realloc_fst] at hp
      rw [← hp]
      split_ifs with h1 h2
      · rfl
      · rfl
      · rw [if_neg h1, if_neg h2] at hok
        exact (malloc_aligned s size hb hok).1
    · simp only [call, realloc_brk]
      split_ifs with h1 h2
      · rw [if_pos h1] at hok
        exact (malloc_aligned s size hb hok).2
      · exact hb
      · rw [if_neg h1, if_neg h2] at hok
        exact (malloc_aligned s size hb hok).2
  | calloc nmemb size =>
    simp only [call_ok] at hok
    obtain ⟨h1, h2⟩ := malloc_aligned s _ hb hok
    refine ⟨?_, ?_⟩
    · intro p hp
      simp only [call, Option.some.injEq, calloc_fst] at hp
      rw [← hp]; exact h1
    · simp only [call, calloc_brk]; exact h2

theorem run_aligned (cs : List Call) : ∀ (s : State), s.mem_brk % 16 = 0 →
    run_ok s cs = true → ∀ r ∈ (run s cs).1, ∀ p, r = some p → p % 16 = 0 := by
  induction cs with
  | nil =>
    intro s _ _ r hr
    cases hr
  | cons c cs ih =>
    intro s hb hok r hr p hp
    simp only [run_ok, Bool.and_eq_true] at hok
    obtain ⟨h1, h2⟩ := call_aligned s c hb hok.1
    simp only [run] at hr
    rcases List.mem_cons.mp hr with h | h
    · exact h1 p (by rw [← h, hp])
    · exact ih (call s c).2 h2 hok.2 r h p hp

/-! ## Free lists across states -/

theorem freeList_congr (s t : State) (cells : List Nat) (hm : t.mem = s.mem)
    (hh : t.free_head = s.free_head) (hl : t.free_last = s.free_last)
    (h : FreeList s cells) : FreeList t cells := by
  cases cells with
  | nil => exact h.elim
  | cons c rest =>
    obtain ⟨h1, h2, h3, h4, h5⟩ := h
    exact ⟨hh.trans h1, hl.trans h2, by rw [hm]; exact h3, h4, h5⟩

theorem freeList_malloc (s : State) (size : Nat) (cells : List Nat) (h : FreeList s cells) :
    FreeList (malloc s size).2 cells :=
  freeList_congr s _ cells (malloc_mem s size) (malloc_free_head_eq s size)
    (malloc_free_last_eq s size) h

theorem header_of_eq (p : Nat) (h1 : 32 ≤ p) (h2 : p < WORD) : header_of p = p - 32 := by
  simp only [header_of, SIZEOF_HEADER, WORD] at *
  omega

theorem pairwise_sep_apart (l : List Nat) (h : List.Pairwise Sep l) :
    ∀ a ∈ l, ∀ b ∈ l, Apart a b := by
  induction l with
  | nil => intro a ha; cases ha
  | cons c rest ih =>
    obtain ⟨h1, h2⟩ := List.pairwise_cons.mp h
    intro a ha b hb
    rcases List.mem_cons.mp ha with ea | ha
    · rcases List.mem_cons.mp hb with eb | hb
      · exact Or.inl (ea.trans eb.symm)
      · rw [ea]; exact Or.inr (h1 b hb)
    · rcases List.mem_cons.mp hb with eb | hb
      · rw [eb]; exact Or.inr (h1 a ha).flip
      · exact ih h2 a ha b hb

theorem freeList_head_mem (s : State) (cells : List Nat) (h : FreeList s cells) :
    s.free_head ∈ cells ∧ s.free_last ∈ cells := by
  cases cells with
  | nil => exact h.elim
  | cons c rest =>
    obtain ⟨h1, h2, _, _, _⟩ := h
    exact ⟨by rw [h1]; exact List.mem_cons_self _ _, by rw [h2]; exact lastCell_mem rest c⟩

theorem freeList_pairwise (s : State) (cells : List Nat) (h : FreeList s cells) :
    List.Pairwise Sep cells := by
  cases cells with
  | nil => exact h.elim
  | cons c rest => exact h.2.2.2.1

theorem chain_next_mem (m : Mem) (first : Nat) : ∀ (rest : List Nat) (a : Nat),
    Chain m first a rest → ∀ c ∈ a :: rest, get_next m c = first ∨ get_next m c ∈ rest := by
  intro rest
  induction rest with
  | nil =>
    intro a hc c hcm
    rw [List.mem_singleton.mp hcm]
    exact Or.inl hc.1
  | cons b rest ih =>
    intro a hc c hcm
    obtain ⟨hn, _, hc⟩ := hc
    rcases List.mem_cons.mp hcm with h | h
    · rw [h, hn]; exact Or.inr (List.mem_cons_self _ _)
    · rcases ih b hc c h with k | k
      · exact Or.inl k
      · exact Or.inr (List.mem_cons_of_mem _ k)

theorem freeList_next_mem (s : State) (cells : List Nat) (h : FreeList s cells) :
    ∀ c ∈ cells, get_next s.mem c ∈ cells := by
  cases cells with
  | nil => exact h.elim
  | cons a rest =>
    obtain ⟨_, _, hc, _, _⟩ := h
    intro c hcm
    rcases chain_next_mem s.mem a rest a hc c hcm with k | k
    · rw [k]; exact List.mem_cons_self _ _
    · exact List.mem_cons_of_mem _ k

theorem walk_subset (m : Mem) (cells : List Nat) (hcl : ∀ c ∈ cells, get_next m c ∈ cells) :
    ∀ (k a : Nat), a ∈ cells → ∀ b ∈ walk m a k, b ∈ cells := by
  intro k
  induction k with
  | zero => intro a _ b hb; cases hb
  | succ k ih =>
    intro a ha b hb
    rcases List.mem_cons.mp hb with h | h
    · rw [h]; exact ha
    · exact ih (get_next m a) (hcl a ha) b h

/-- Whatever is reached from `free_head` by following `next` links is a member of the
well-formed free list. -/
theorem freeList_reachable (s : State) (cells : List Nat) (h : FreeList s cells) :
    ∀ k, ∀ b ∈ walk s.mem s.free_head k, b ∈ cells :=
  fun k => walk_subset s.mem cells (freeList_next_mem s cells h) k s.free_head
    (freeList_head_mem s cells h).1

/-! ## The invariant is established by `mm_init` and kept by `malloc` and `free` -/

theorem inv_init (s0 : State) (hmax : s0.mem_max_addr < WORD)
    (hok : sbrk_ok s0 (align SIZEOF_HEADER) = true) : Inv (mm_init s0).2 [] [] := by
  obtain ⟨hp, hb⟩ := mm_init_ok_prologue s0 hok
  simp only [sbrk_ok, decide_eq_true_eq, align_header] at hok
  have hlt : (mm_init s0).2.prologue < WORD := by rw [hp]; omega
  refine ⟨by rw [mm_init_max_eq]; exact hmax, by rw [mm_init_max_eq, hb]; exact hok,
    by rw [hp, hb], mm_init_freeList s0 hlt, ?_, (mm_init_fields s0 hlt).2.2.2, ?_, ?_,
    List.nodup_nil, ?_, ?_⟩
  · intro b hb; cases hb
  · intro b hb; cases hb
  · intro p hp; cases hp
  · intro p hp; cases hp
  · intro p hp; cases hp

theorem inv_malloc (s : State) (live fl : List Nat) (size : Nat) (h : Inv s live fl)
    (hsz : size ≤ MAX_REQUEST) (hok : malloc_ok s size = true) :
    Inv (malloc s size).2 (if size = 0 then live else (malloc s size).1 :: live) fl := by
  by_cases h0 : size = 0
  · subst h0
    rw [malloc_zero, if_pos rfl]
    exact h
  rw [if_neg h0]
  obtain ⟨i1, i2, i3, i4, i5, i6, i7, i8, i9, i10, i11⟩ := h
  have hg := malloc_ok_grow s size h0 hok
  have hbrk := malloc_grow_brk s size h0 hg
  have hptr := malloc_grow_ptr s size h0 hg
  have hb := asize_bounds size hsz
  simp only [sbrk_ok, decide_eq_true_eq] at hg
  have hp : (malloc s size).1 = s.mem_brk + 32 := by
    rw [hptr]; exact Nat.mod_eq_of_lt (by omega)
  have hsize : 0 < size := Nat.pos_of_ne_zero h0
  refine ⟨by rw [malloc_max_eq]; exact i1, by rw [malloc_max_eq, hbrk]; exact hg,
    by rw [malloc_prologue_eq, hbrk]; omega, ?_, by rw [malloc_mem]; exact i5,
    by rw [malloc_mem, malloc_prologue_eq]; exact i6, ?_, ?_, ?_, ?_, ?_⟩
  · rw [malloc_prologue_eq]; exact freeList_malloc s size _ i4
  · intro b hb
    rw [malloc_prologue_eq, hbrk]
    have := i7 b hb
    omega
  · intro p hpm
    rw [malloc_prologue_eq, hbrk]
    rcases List.mem_cons.mp hpm with e | hl
    · rw [e, hp]; omega
    · have := i8 p hl
      omega
  · refine List.nodup_cons.mpr ⟨?_, i9⟩
    intro hmem
    have := i8 _ hmem
    omega
  · intro p hpm q hqm hne
    rcases List.mem_cons.mp hpm with e | hl
    · rcases List.mem_cons.mp hqm with e2 | hl2
      · exact absurd (e.trans e2.symm) hne
      · have := i8 q hl2
        simp only [Sep, SIZEOF_HEADER]
        omega
    · rcases List.mem_cons.mp hqm with e2 | hl2
      · have := i8 p hl
        simp only [Sep, SIZEOF_HEADER]
        omega
      · exact i10 p hl q hl2 hne
  · intro p hpm b hb
    rcases List.mem_cons.mp hpm with e | hl
    · have := i7 b hb
      simp only [Sep, SIZEOF_HEADER]
      omega
    · exact i11 p hl b hb

theorem inv_free (s : State) (live fl : List Nat) (p : Nat) (h : Inv s live fl)
    (hp : p ∈ live) : Inv (free s p) (live.erase p) (header_of p :: fl) := by
  obtain ⟨i1, i2, i3, i4, i5, i6, i7, i8, i9, i10, i11⟩ := h
  have hr := i8 p hp
  have hnn : p ≠ NULL := by simp only [NULL]; omega
  have hh : header_of p = p - 32 := header_of_eq p (by omega) (by omega)
  have hsep : ∀ c ∈ fl ++ [s.prologue], Sep (header_of p) c := by
    intro c hc
    rw [hh]
    rcases List.mem_append.mp hc with k | k
    · exact i11 p hp c k
    · rw [List.mem_singleton.mp k]
      simp only [Sep, SIZEOF_HEADER]
      omega
  have hpw := freeList_pairwise s _ i4
  obtain ⟨hhm, hlm⟩ := freeList_head_mem s _ i4
  have hap := pairwise_sep_apart _ hpw
  have hpm : s.prologue ∈ fl ++ [s.prologue] :=
    List.mem_append.mpr (Or.inr (List.mem_singleton.mpr rfl))
  refine ⟨by rw [free_max_eq]; exact i1, by rw [free_max_eq, free_brk_eq]; exact i2,
    by rw [free_prologue_eq, free_brk_eq]; exact i3, ?_, ?_, ?_, ?_, ?_,
    i9.erase p, ?_, ?_⟩
  · rw [free_prologue_eq]
    exact freeList_insert s _ p i4 hnn hsep
  · intro b hb
    rcases List.mem_cons.mp hb with e | k
    · rw [e]
      exact free_free_new s p hnn (hsep _ hhm) (hsep _ hlm)
    · have hbm : b ∈ fl ++ [s.prologue] := List.mem_append.mpr (Or.inl k)
      rw [free_free_frame s p b hnn (hsep b hbm).flip (hap b hbm _ hhm) (hap b hbm _ hlm)]
      exact i5 b k
  · rw [free_prologue_eq,
      free_free_frame s p _ hnn (hsep _ hpm).flip (hap _ hpm _ hhm) (hap _ hpm _ hlm)]
    exact i6
  · intro b hb
    rw [free_prologue_eq, free_brk_eq]
    rcases List.mem_cons.mp hb with e | k
    · rw [e, hh]; omega
    · exact i7 b k
  · intro q hq
    rw [free_prologue_eq, free_brk_eq]
    exact i8 q (List.mem_of_mem_erase hq)
  · intro q hq r hr2 hne
    exact i10 q (List.mem_of_mem_erase hq) r (List.mem_of_mem_erase hr2) hne
  · intro q hq b hb
    have hqm := List.mem_of_mem_erase hq
    rcases List.mem_cons.mp hb with e | k
    · rw [e, hh]
      exact i10 q hqm p hp ((List.Nodup.mem_erase_iff i9).mp hq).1
    · exact i11 q hqm b k

/-- Every valid history of `malloc` and `free` calls keeps the invariant. -/
theorem inv_run (cs : List Call) : ∀ (s : State) (live fl : List Nat), Inv s live fl →
    valid s live cs = true → ∃ fl2, Inv (run s cs).2 (live_after s live cs) fl2 := by
  induction cs with
  | nil =>
    intro s live fl h _
    exact ⟨fl, h⟩
  | cons c cs ih =>
    intro s live fl h hv
    cases c with
    | malloc size =>
      simp only [valid, Bool.and_eq_true, decide_eq_true_eq] at hv
      exact ih _ _ fl (inv_malloc s live fl size h hv.1.1 hv.1.2) hv.2
    | free ptr =>
      simp only [valid, Bool.and_eq_true, decide_eq_true_eq] at hv
      exact ih _ _ _ (inv_free s live fl ptr h hv.1) hv.2
    | realloc oldptr size => simp [valid] at hv
    | calloc nmemb size => simp [valid] at hv

theorem free_size_same (s : State) (cells : List Nat) (p x : Nat) (hwf : FreeList s cells)
    (hp : p ≠ NULL) (hx : Apart x (header_of p)) (hxc : ∀ c ∈ cells, Apart x c) :
    get_size (free s p).mem x = get_size s.mem x := by
  obtain ⟨hhm, hlm⟩ := freeList_head_mem s cells hwf
  exact free_size_frame s p x hp hx (hxc _ hhm) (hxc _ hlm)

/-- Two consecutive `malloc` calls hand out physically adjacent blocks above every header
that lies below the old heap end. -/
theorem malloc_twice (s : State) (n1 n2 : Nat) (hmax : s.mem_max_addr < WORD)
    (h1 : 0 < n1 ∧ n1 ≤ MAX_REQUEST) (h2 : 0 < n2 ∧ n2 ≤ MAX_REQUEST)
    (hok : malloc_all_ok s [n1, n2] = true) :
    (malloc s n1).1 ≠ NULL ∧ (malloc (malloc s n1).2 n2).1 ≠ NULL ∧
      header_of (malloc s n1).1 = s.mem_brk ∧
      header_of (malloc (malloc s n1).2 n2).1 = s.mem_brk + asize n1 ∧
      32 ≤ asize n1 := by
  simp only [malloc_all_ok, Bool.and_eq_true, and_true] at hok
  have g1 := malloc_ok_grow s n1 (by omega) hok.1
  have g2 := malloc_ok_grow _ n2 (by omega) hok.2
  have p1 := malloc_grow_ptr s n1 (by omega) g1
  have b1 := malloc_grow_brk s n1 (by omega) g1
  have p2 := malloc_grow_ptr _ n2 (by omega) g2
  have a1 := asize_bounds n1 h1.2
  have a2 := asize_bounds n2 h2.2
  simp only [sbrk_ok, decide_eq_true_eq, malloc_max_eq] at g1 g2
  rw [b1] at g2 p2
  have e1 : (malloc s n1).1 = s.mem_brk + 32 := by
    rw [p1]; exact Nat.mod_eq_of_lt (by omega)
  have e2 : (malloc (malloc s n1).2 n2).1 = s.mem_brk + asize n1 + 32 := by
    rw [p2]; exact Nat.mod_eq_of_lt (by omega)
  rw [e1, e2, header_of_eq _ (by omega) (by omega), header_of_eq _ (by omega) (by omega)]
  simp only [NULL]
  omega

/-! ## `realloc` -/

theorem realloc_copy_mem (s : State) (oldptr size : Nat) (h1 : oldptr ≠ NULL)
    (h2 : size ≠ 0) :
    (realloc s oldptr size).2.mem = memcpy s.mem (malloc s size).1 oldptr size := by
  simp only [realloc, if_neg h1, if_neg h2, malloc_mem]

theorem realloc_copy_fst (s : State) (oldptr size : Nat) (h1 : oldptr ≠ NULL)
    (h2 : size ≠ 0) : (realloc s oldptr size).1 = (malloc s size).1 := by
  simp only [realloc, if_neg h1, if_neg h2]

/-! ## The traversal of `find_fit` -/

theorem find_fit_loop_found (s : State) (asize fuel current : Nat) :
    find_fit_loop s asize fuel true current = some (true, current, []) := by
  cases fuel <;> simp [find_fit_loop]

theorem find_fit_loop_last (s : State) (asize fuel : Nat) :
    find_fit_loop s asize fuel false s.free_last = some (false, s.free_last, []) := by
  cases fuel <;> simp [find_fit_loop]

theorem find_fit_loop_step (s : State) (asize fuel current : Nat)
    (hne : current ≠ s.free_last) :
    find_fit_loop s asize (fuel + 1) false current =
      (find_fit_loop s asize fuel (decide (asize < get_size s.mem current))
        (get_next s.mem current)).map fun r => (r.1, r.2.1, current :: r.2.2) := by
  simp [find_fit_loop, hne]

theorem find_fit_loop_zero (s : State) (asize current : Nat) (hne : current ≠ s.free_last) :
    find_fit_loop s asize 0 false current = none := by
  simp [find_fit_loop, hne]

theorem sep_ne {a b : Nat} (h : Sep a b) : a ≠ b := by
  intro e
  simp only [Sep, SIZEOF_HEADER, e] at h
  omega

theorem pairwise_sep_nodup (l : List Nat) (h : List.Pairwise Sep l) : l.Nodup :=
  List.Pairwise.imp (fun hab => sep_ne hab) h

/-- On headers chained in the order `a :: rest` that end in `free_last`, the loop of
`find_fit` stops within `rest.length` iterations and computes `scan`. -/
theorem find_fit_loop_scan (s : State) (asize first : Nat) : ∀ (rest : List Nat) (a fuel : Nat),
    Chain s.mem first a rest → List.Pairwise Sep (a :: rest) → lastCell a rest = s.free_last →
    rest.length ≤ fuel →
    find_fit_loop s asize fuel false a = some (scan s.mem asize a rest) := by
  intro rest
  induction rest with
  | nil =>
    intro a fuel _ _ hl _
    simp only [lastCell] at hl
    rw [hl]
    exact find_fit_loop_last s asize fuel
  | cons b rest ih =>
    intro a fuel hc hpw hl hf
    obtain ⟨hn, _, hc⟩ := hc
    obtain ⟨h1, h2⟩ := List.pairwise_cons.mp hpw
    have hne : a ≠ s.free_last := by
      rw [← hl]
      exact sep_ne (h1 _ (lastCell_mem rest b))
    obtain ⟨f, rfl⟩ : ∃ f, fuel = f + 1 := ⟨fuel - 1, by simp only [List.length_cons] at hf; omega⟩
    rw [find_fit_loop_step s asize f a hne, hn]
    by_cases hfit : asize < get_size s.mem a
    · simp only [hfit, decide_True, find_fit_loop_found, Option.map_some', scan, if_true]
    · rw [decide_eq_false hfit, ih b f hc h2 (by simpa [lastCell] using hl)
        (by simp only [List.length_cons] at hf; omega)]
      simp only [Option.map_some', scan, if_neg hfit]

/-- The headers examined by `scan` are headers of the list, in list order and without the
last one. -/
theorem scan_examined (m : Mem) (asize : Nat) : ∀ (rest : List Nat) (a : Nat),
    (a :: rest).Nodup →
    List.Sublist (scan m asize a rest).2.2 (a :: rest) ∧
      lastCell a rest ∉ (scan m asize a rest).2.2 := by
  intro rest
  induction rest with
  | nil =>
    intro a _
    simp [scan]
  | cons b rest ih =>
    intro a hnd
    obtain ⟨h1, h2⟩ := List.nodup_cons.mp hnd
    obtain ⟨i1, i2⟩ := ih b h2
    have hla : lastCell b rest ≠ a := by
      intro e
      exact h1 (e ▸ lastCell_mem rest b)
    by_cases hfit : asize < get_size m a
    · simp only [scan, if_pos hfit, lastCell, List.mem_singleton]
      exact ⟨List.Sublist.cons₂ a (List.nil_sublist _), hla⟩
    · simp only [scan, if_neg hfit, lastCell, List.mem_cons, not_or]
      exact ⟨List.Sublist.cons₂ a i1, hla, i2⟩

/-- In a state with a well-formed free list `find_fit` stops within as many iterations as
the list has members; the headers it examined are members, each examined once, and
`free_last` is not among them. -/
theorem freeList_find_fit (s : State) (cells : List Nat) (asize : Nat)
    (h : FreeList s cells) :
    ∃ r, (∀ fuel, cells.length ≤ fuel →
        find_fit_loop s asize fuel false s.free_head = some r) ∧
      r.2.2.Nodup ∧ s.free_last ∉ r.2.2 ∧ ∀ b ∈ r.2.2, b ∈ cells := by
  cases cells with
  | nil => exact h.elim
  | cons c rest =>
    obtain ⟨h1, h2, hc, hpw, _⟩ := h
    have hnd := pairwise_sep_nodup _ hpw
    obtain ⟨e1, e2⟩ := scan_examined s.mem asize rest c hnd
    refine ⟨scan s.mem asize c rest, ?_, e1.nodup hnd, by rw [h2]; exact e2,
      fun b hb => e1.subset hb⟩
    intro fuel hf
    rw [h1]
    exact find_fit_loop_scan s asize c rest c fuel hc hpw h2.symm
      (by simp only [List.length_cons] at hf; omega)

/-- A loop that does not stop within any number of iterations from the successor of
`current` does not stop from `current` either, when `current` is no fit. -/
theorem find_fit_loop_diverges_step (s : State) (asize current : Nat)
    (hne : current ≠ s.free_last) (hsz : ¬ asize < get_size s.mem current)
    (hnext : ∀ fuel, find_fit_loop s asize fuel false (get_next s.mem current) = none) :
    ∀ fuel, find_fit_loop s asize fuel false current = none := by
  intro fuel
  cases fuel with
  | zero => exact find_fit_loop_zero s asize current hne
  | succ f =>
    rw [find_fit_loop_step s asize f current hne, decide_eq_false hsz, hnext f]
    rfl

/-- A header that is no fit and whose `next` is itself keeps the loop running forever. -/
theorem find_fit_loop_diverges_self (s : State) (asize current : Nat)
    (hne : current ≠ s.free_last) (hsz : ¬ asize < get_size s.mem current)
    (hself : get_next s.mem current = current) :
    ∀ fuel, find_fit_loop s asize fuel false current = none := by
  intro fuel
  induction fuel with
  | zero => exact find_fit_loop_zero s asize current hne
  | succ f ih =>
    rw [find_fit_loop_step s asize f current hne, decide_eq_false hsz, hself, ih]
    rfl

/-! ## `calloc` and `memset` -/

theorem chain_congr_below (m1 m2 : Mem) (bound first : Nat)
    (hm : ∀ x, x < bound → m2 x = m1 x) (hf : first + 32 ≤ bound) :
    ∀ (rest : List Nat) (a : Nat), (∀ c ∈ a :: rest, c + 32 ≤ bound) →
      Chain m1 first a rest → Chain m2 first a rest := by
  have hnext : ∀ c, c + 32 ≤ bound → get_next m2 c = get_next m1 c := fun c hc =>
    load_congr 8 m2 m1 (c + 8) (fun x _ h2 => hm x (by omega))
  have hprev : ∀ c, c + 32 ≤ bound → get_prev m2 c = get_prev m1 c := fun c hc =>
    load_congr 8 m2 m1 (c + 16) (fun x _ h2 => hm x (by omega))
  intro rest
  induction rest with
  | nil =>
    intro a ha hc
    have h1 := ha a (List.mem_cons_self _ _)
    exact ⟨by rw [hnext a h1]; exact hc.1, by rw [hprev first hf]; exact hc.2⟩
  | cons b rest ih =>
    intro a ha hc
    have h1 := ha a (List.mem_cons_self _ _)
    have h2 := ha b (List.mem_cons_of_mem _ (List.mem_cons_self _ _))
    exact ⟨by rw [hnext a h1]; exact hc.1, by rw [hprev b h2]; exact hc.2.1,
      ih b (fun c hcm => ha c (List.mem_cons_of_mem _ hcm)) hc.2.2⟩

/-- A well-formed free list whose headers lie below `bound` stays as it is when the heap
changes only at and above `bound` and the two list globals are kept. -/
theorem freeList_congr_below (s t : State) (cells : List Nat) (bound : Nat)
    (hm : ∀ x, x < bound → t.mem x = s.mem x) (hh : t.free_head = s.free_head)
    (hl : t.free_last = s.free_last) (hb : ∀ c ∈ cells, c + 32 ≤ bound)
    (h : FreeList s cells) : FreeList t cells := by
  cases cells with
  | nil => exact h.elim
  | cons c rest =>
    obtain ⟨h1, h2, h3, h4, h5⟩ := h
    exact ⟨hh.trans h1, hl.trans h2,
      chain_congr_below s.mem t.mem bound c hm (hb c (List.mem_cons_self _ _)) rest c hb h3,
      h4, h5⟩

theorem realloc_copy_heads (s : State) (oldptr size : Nat) (h1 : oldptr ≠ NULL)
    (h2 : size ≠ 0) :
    (realloc s oldptr size).2.free_head = s.free_head ∧
      (realloc s oldptr size).2.free_last = s.free_last := by
  simp only [realloc, if_neg h1, if_neg h2, malloc_free_head_eq, malloc_free_last_eq, and_self]

/-! ## `align` -/

theorem align_eq (x : Nat) : align x = (16 * ((x + 16 - 1) % 2 ^ 64 / 16)) % 2 ^ 64 := by
  simp only [align, ALIGNMENT, WORD]

theorem align_spec (x : Nat) (hx : x ≤ WORD - 16) :
    align x % 16 = 0 ∧ x ≤ align x ∧ ∀ y, y % 16 = 0 → x ≤ y → align x ≤ y := by
  simp only [WORD] at hx
  rw [align_eq]
  refine ⟨by omega, by omega, ?_⟩
  intro y hy hxy
  omega

/-! ## Claims about `malloc` -/

/-- C1, as stated, fails: after `mm_init` the run `malloc(2^64 - 1); malloc(1)` has every
growth request succeed, yet the first block has no usable byte at all (`asize` wraps to
32) and its payload region `[4160, 4160 + 2^64 - 1)` contains the second payload
`[4192, 4193)`. -/
theorem malloc_wrapping_request_overlaps :
    malloc_all_ok (mm_init heap0).2 [2 ^ 64 - 1, 1] = true ∧
      (malloc_all (mm_init heap0).2 [2 ^ 64 - 1, 1]).1 =
        [{ ptr := 4160, size := 2 ^ 64 - 1, region_end := 4160 },
         { ptr := 4192, size := 1, region_end := 4208 }] ∧
      ¬ List.Pairwise Grant.disjoint (malloc_all (mm_init heap0).2 [2 ^ 64 - 1, 1]).1 ∧
      ¬ ∀ g ∈ (malloc_all (mm_init heap0).2 [2 ^ 64 - 1, 1]).1, g.large_enough := by
  have h : (malloc_all (mm_init heap0).2 [2 ^ 64 - 1, 1]).1 =
      [{ ptr := 4160, size := 2 ^ 64 - 1, region_end := 4160 },
       { ptr := 4192, size := 1, region_end := 4208 }] := by decide
  refine ⟨by decide, h, ?_, ?_⟩
  · rw [h]
    simp [Grant.disjoint]
  · rw [h]
    simp [Grant.large_enough]

/-- C1 (amended): after `mm_init`, for every run of `malloc` calls without `free` whose
requests are at most `2^64 - 48` and whose growth requests all succeed inside the 64-bit
address space, the payload regions `[p_i, p_i + size_i)` are pairwise disjoint and every
block has `size_i` usable bytes before the end of its grown region, with
`asize_i - header size >= size_i`. -/
theorem malloc_payloads_disjoint_and_large (s0 : State) (sizes : List Nat)
    (hmax : s0.mem_max_addr < WORD) (hsz : ∀ n ∈ sizes, n ≤ MAX_REQUEST)
    (hok : malloc_all_ok (mm_init s0).2 sizes = true) :
    List.Pairwise Grant.disjoint (malloc_all (mm_init s0).2 sizes).1 ∧
      ∀ g ∈ (malloc_all (mm_init s0).2 sizes).1, g.large_enough := by
  obtain ⟨h1, h2⟩ := malloc_all_grants sizes (mm_init s0).2
    (by rw [mm_init_max_eq]; exact hmax) hsz hok
  refine ⟨h2, ?_⟩
  intro g hg
  by_cases h0 : g.size = 0
  · exact Or.inl h0
  · exact (h1 g hg h0).2

/-- Witness for C1 (amended): the run `malloc(16); malloc(100); malloc(0); malloc(1)` on a
4096-byte heap. -/
theorem malloc_payloads_disjoint_and_large_witness :
    List.Pairwise Grant.disjoint (malloc_all (mm_init heap0).2 [16, 100, 0, 1]).1 ∧
      ∀ g ∈ (malloc_all (mm_init heap0).2 [16, 100, 0, 1]).1, g.large_enough :=
  malloc_payloads_disjoint_and_large heap0 [16, 100, 0, 1] (by decide) (by decide) (by decide)

/-- C2: with a heap start that is a multiple of 16, every pointer returned by `malloc`,
`realloc` and `calloc` in any history of calls after `mm_init` in which every growth
request succeeds is 0 modulo 16. -/
theorem returned_pointers_aligned (s0 : State) (calls : List Call)
    (hstart : s0.mem_brk % 16 = 0) (hok : run_ok (mm_init s0).2 calls = true) :
    ∀ r ∈ (run (mm_init s0).2 calls).1, ∀ p, r = some p → p % 16 = 0 :=
  run_aligned calls (mm_init s0).2 (by rw [mm_init_brk_mod]; exact hstart) hok

/-- Witness for C2: a history with all four operations on a 4096-byte heap at address
4096. -/
theorem returned_pointers_aligned_witness :
    heap0.mem_brk % 16 = 0 ∧
      run_ok (mm_init heap0).2 [Call.malloc 16, Call.calloc 2 8, Call.realloc 4160 100,
        Call.free 4160, Call.realloc 0 5] = true ∧
      ∀ r ∈ (run (mm_init heap0).2 [Call.malloc 16, Call.calloc 2 8, Call.realloc 4160 100,
        Call.free 4160, Call.realloc 0 5]).1, ∀ p, r = some p → p % 16 = 0 :=
  ⟨by decide, by decide, returned_pointers_aligned heap0 _ (by decide) (by decide)⟩

/-- C3, evaluated at the failing input: on a 4096-byte heap whose growth primitive returns
`(void*)-1` on failure, `malloc(10000000)` finds the growth request refused and returns the
address 31, which is not `NULL`; the allocator state is unchanged. -/
theorem malloc_growth_failure_returns_pointer :
    sbrk_ok (mm_init heap0).2 (asize 10000000) = false ∧
      (malloc (mm_init heap0).2 10000000).1 = 31 ∧
      (malloc (mm_init heap0).2 10000000).1 ≠ NULL ∧
      (malloc (mm_init heap0).2 10000000).2 = (mm_init heap0).2 :=
  ⟨by decide, by decide, by decide, malloc_fail_state _ _ (by decide)⟩

/-- C4: in every state `malloc(0)` returns `NULL` and leaves the state as it is: heap
end, heap bytes (so every header), `free_head` and `free_last` are unchanged. -/
theorem malloc_zero_is_noop (s : State) :
    (malloc s 0).1 = NULL ∧ (malloc s 0).2 = s ∧
      (malloc s 0).2.mem_brk = s.mem_brk ∧ (malloc s 0).2.mem = s.mem ∧
      (malloc s 0).2.free_head = s.free_head ∧ (malloc s 0).2.free_last = s.free_last := by
  simp only [malloc, if_pos, and_self]

/-- C5, evaluated at the failing input: after `mm_init`, `p1 = malloc(16)`,
`p2 = malloc(16)`, `free(p1)`, the free list is headed by the block of `p1`, yet
`p3 = malloc(16)` is 4256, not `p1 = 4160`, and the heap end moves from 4224 to 4272. -/
theorem malloc_does_not_reuse_freed_block :
    (malloc (mm_init heap0).2 16).1 = 4160 ∧
      (malloc (malloc (mm_init heap0).2 16).2 16).1 = 4208 ∧
      (free (malloc (malloc (mm_init heap0).2 16).2 16).2 4160).free_head = 4128 ∧
      (free (malloc (malloc (mm_init heap0).2 16).2 16).2 4160).mem_brk = 4224 ∧
      (malloc (free (malloc (malloc (mm_init heap0).2 16).2 16).2 4160) 16).1 = 4256 ∧
      (malloc (free (malloc (malloc (mm_init heap0).2 16).2 16).2 4160) 16).2.mem_brk = 4272 := by
  decide

/-! ## Claims about `free` and the free list -/

/-- C6, as stated, fails, on a 4096-byte heap at 4096. (1) After `mm_init`,
`malloc(2^64 - 31) = 4160` (a block of 16 bytes at 4128), `malloc(1) = 4176` (block at
4144) and `free(4176)`, the free list is the circular doubly linked list of 4144 and the
prologue 4096, and the block of `p = 4160`, whose header is 4128, is not in it. The header
at 4128 overlaps the one at 4144, so `free(p)` overwrites `4144.next` with 0: the traversal
from the new head runs 4128, 4144, 0, 0, the prologue is lost, and `B.next.prev == B`
fails for the member 4144. (2) After `mm_init`, `malloc(10000000)` finds its growth refused
and returns 31, a pointer whose block is not in the free list; its header would start at
`2^64 - 1`, outside the backing store, where `free` has no memory to write. -/
theorem free_breaks_list_on_overlapping_header :
    ((malloc (mm_init heap0).2 (2 ^ 64 - 31)).1 = 4160 ∧
      (malloc (malloc (mm_init heap0).2 (2 ^ 64 - 31)).2 1).1 = 4176 ∧
      FreeList (free (malloc (malloc (mm_init heap0).2 (2 ^ 64 - 31)).2 1).2 4176)
        (header_of 4176 :: [4096]) ∧
      header_of 4176 = 4144 ∧ header_of 4160 = 4128 ∧ 4128 ∉ [4144, 4096] ∧
      walk (free (free (malloc (malloc (mm_init heap0).2 (2 ^ 64 - 31)).2 1).2 4176) 4160).mem
        (free (free (malloc (malloc (mm_init heap0).2 (2 ^ 64 - 31)).2 1).2 4176) 4160).free_head
        4 = [4128, 4144, 0, 0] ∧
      get_next (free (free (malloc (malloc (mm_init heap0).2 (2 ^ 64 - 31)).2 1).2 4176)
        4160).mem 4144 = 0 ∧
      get_prev (free (free (malloc (malloc (mm_init heap0).2 (2 ^ 64 - 31)).2 1).2 4176)
        4160).mem 0 ≠ 4144) ∧
    (FreeList (mm_init heap0).2 [4096] ∧
      (malloc (mm_init heap0).2 10000000).1 = 31 ∧
      (malloc (mm_init heap0).2 10000000).2 = (mm_init heap0).2 ∧
      header_of 31 = 2 ^ 64 - 1 ∧ 2 ^ 64 - 1 ∉ [4096] ∧
      (mm_init heap0).2.mem_max_addr < header_of 31) :=
  ⟨⟨by decide, by decide,
    freeList_insert (malloc (malloc (mm_init heap0).2 (2 ^ 64 - 31)).2 1).2 [4096] 4176
      (freeList_malloc _ 1 [4096]
        (freeList_malloc _ (2 ^ 64 - 31) [4096] (mm_init_freeList heap0 (by decide))))
      (by decide) (fun c hc => by rw [List.mem_singleton.mp hc]; exact Or.inr (by decide)),
    by decide, by decide, by decide, by decide, by decide, by decide⟩,
   ⟨mm_init_freeList heap0 (by decide), by decide, malloc_fail_state _ _ (by decide),
    by decide, by decide, by decide⟩⟩

/-- C6 (amended): in every state whose heap lies in the 64-bit address space and whose free
list is circular and doubly linked from `free_head` to `free_last`, with members `cells`
whose headers lie inside the heap and do not overlap each other, for every pointer `p`
whose header `p - 32` lies inside the heap behind the prologue and overlaps no member
header (as for a pointer returned by `malloc` for a request that did not wrap and not yet
released): after `free(p)` the block of `p` is the free-list head, its `next` is the
previous head, one traversal from the new head visits the new block and then every
previous member in the old order, and the list is again circular and doubly linked, with
`B.next.prev == B` and `B.prev.next == B` for every member, the new one and the prologue
included. -/
theorem free_inserts_at_head (s : State) (cells : List Nat) (p : Nat)
    (hwf : FreeList s cells)
    (hheap : s.mem_brk ≤ s.mem_max_addr ∧ s.mem_max_addr < WORD)
    (hin : ∀ c ∈ cells, s.prologue ≤ c ∧ c + SIZEOF_HEADER ≤ s.mem_brk)
    (hp : s.prologue + 2 * SIZEOF_HEADER ≤ p ∧ p ≤ s.mem_brk)
    (hsep : ∀ c ∈ cells, Sep (p - SIZEOF_HEADER) c) :
    (free s p).free_head = p - SIZEOF_HEADER ∧
      get_next (free s p).mem (p - SIZEOF_HEADER) = s.free_head ∧
      walk (free s p).mem (free s p).free_head (cells.length + 1)
        = (p - SIZEOF_HEADER) :: cells ∧
      get_next (free s p).mem (free s p).free_last = (free s p).free_head ∧
      FreeList (free s p) ((p - SIZEOF_HEADER) :: cells) ∧
      ∀ B ∈ (p - SIZEOF_HEADER) :: cells,
        get_prev (free s p).mem (get_next (free s p).mem B) = B ∧
          get_next (free s p).mem (get_prev (free s p).mem B) = B := by
  simp only [SIZEOF_HEADER] at hp hsep ⊢
  have hnn : p ≠ NULL := by simp only [NULL]; omega
  have hh : header_of p = p - 32 := header_of_eq p (by omega) (by omega)
  rw [← hh] at hsep ⊢
  have hnew := freeList_insert s cells p hwf hnn hsep
  obtain ⟨hhm, hlm⟩ := freeList_head_mem s cells hwf
  have hlt : s.free_head < WORD := by
    have := hin _ hhm
    simp only [SIZEOF_HEADER] at this
    omega
  have hw := freeList_walk (free s p) (header_of p :: cells) hnew
  exact ⟨free_head_eq s p hnn, free_next_new s p hnn (hsep _ hhm) (hsep _ hlm) hlt,
    hw.1, hw.2, hnew, freeList_links (free s p) (header_of p :: cells) hnew⟩

/-- Witness for C6 (amended): on a 4096-byte heap at address 4096, after `mm_init` and
`p = malloc(16) = 4160`, the free list is the prologue alone and `free(p)` puts the header
4128 in front of it. -/
theorem free_inserts_at_head_witness :
    (malloc (mm_init heap0).2 16).1 = 4160 ∧
      FreeList (malloc (mm_init heap0).2 16).2 [4096] ∧
      FreeList (free (malloc (mm_init heap0).2 16).2 4160) ((4160 - SIZEOF_HEADER) :: [4096]) :=
  have hwf : FreeList (malloc (mm_init heap0).2 16).2 [4096] :=
    freeList_malloc _ 16 [4096] (mm_init_freeList heap0 (by decide))
  ⟨by decide, hwf, (free_inserts_at_head (malloc (mm_init heap0).2 16).2 [4096] 4160 hwf
    (by decide) (fun c hc => by rw [List.mem_singleton.mp hc]; decide) (by decide)
    (fun c hc => by rw [List.mem_singleton.mp hc]; exact Or.inr (by decide))).2.2.2.2.1⟩

/-- C7, as stated, fails: right after `mm_init` the prologue is the block reached from
`free_head` and its `free` field is 1, not 0; and after `malloc(16)` on a zeroed heap the
header of the block handed out has `free` field 0, not 1. -/
theorem prologue_is_marked_allocated :
    walk (mm_init heap0).2.mem (mm_init heap0).2.free_head 1 = [(mm_init heap0).2.prologue] ∧
      get_free (mm_init heap0).2.mem (mm_init heap0).2.prologue = 1 ∧
      (malloc (mm_init heap0).2 16).1 = 4160 ∧
      get_free (malloc (mm_init heap0).2 16).2.mem (header_of 4160) = 0 := by
  decide

/-- C7 (amended): after `mm_init` and any history of `malloc` and `free` calls (requests
at most `2^64 - 48`, every growth succeeding inside the 64-bit address space, `free` only
on pointers returned by `malloc` and not yet released), every block reachable from
`free_head` by following `next` links other than the prologue has `free` field 0, and the
prologue, which is reachable, has `free` field 1. -/
theorem free_list_members_marked_free (s0 : State) (calls : List Call)
    (hmax : s0.mem_max_addr < WORD) (hinit : sbrk_ok s0 (align SIZEOF_HEADER) = true)
    (hv : valid (mm_init s0).2 [] calls = true) :
    (∀ k, ∀ b ∈ walk (run (mm_init s0).2 calls).2.mem (run (mm_init s0).2 calls).2.free_head k,
        b ≠ (run (mm_init s0).2 calls).2.prologue →
          get_free (run (mm_init s0).2 calls).2.mem b = 0) ∧
      (∃ k, (run (mm_init s0).2 calls).2.prologue ∈
        walk (run (mm_init s0).2 calls).2.mem (run (mm_init s0).2 calls).2.free_head k) ∧
      get_free (run (mm_init s0).2 calls).2.mem (run (mm_init s0).2 calls).2.prologue = 1 := by
  obtain ⟨fl, _, _, _, i4, i5, i6, _⟩ :=
    inv_run calls (mm_init s0).2 [] [] (inv_init s0 hmax hinit) hv
  refine ⟨?_, ⟨(fl ++ [(run (mm_init s0).2 calls).2.prologue]).length, ?_⟩, i6⟩
  · intro k b hb hne
    rcases List.mem_append.mp (freeList_reachable _ _ i4 k b hb) with h | h
    · exact i5 b h
    · exact absurd (List.mem_singleton.mp h) hne
  · rw [(freeList_walk _ _ i4).1]
    exact List.mem_append.mpr (Or.inr (List.mem_singleton.mpr rfl))

/-- Witness for C7 (amended): the history `malloc(16); malloc(16); free(4160); malloc(8);
free(4208)` on a 4096-byte heap at address 4096. -/
theorem free_list_members_marked_free_witness :
    get_free (run (mm_init heap0).2 [Call.malloc 16, Call.malloc 16, Call.free 4160,
        Call.malloc 8, Call.free 4208]).2.mem
      (run (mm_init heap0).2 [Call.malloc 16, Call.malloc 16, Call.free 4160,
        Call.malloc 8, Call.free 4208]).2.prologue = 1 :=
  (free_list_members_marked_free heap0 [Call.malloc 16, Call.malloc 16, Call.free 4160,
    Call.malloc 8, Call.free 4208] (by decide) (by decide) (by decide)).2.2

/-- C8, as stated, fails: after `mm_init`, `malloc(16)`, `malloc(16)` hand out the adjacent
blocks at 4128 and 4176; once both are released the traversal from `free_head` meets two
separate entries, 4176 and 4128, before the prologue, and neither header has the size 96 of a
merged block (no size was ever written). -/
theorem adjacent_free_blocks_stay_separate :
    (malloc (mm_init heap0).2 16).1 = 4160 ∧
      (malloc (malloc (mm_init heap0).2 16).2 16).1 = 4208 ∧
      walk (free (free (malloc (malloc (mm_init heap0).2 16).2 16).2 4160) 4208).mem
        (free (free (malloc (malloc (mm_init heap0).2 16).2 16).2 4160) 4208).free_head 3
        = [4176, 4128, 4096] ∧
      get_size (free (free (malloc (malloc (mm_init heap0).2 16).2 16).2 4160) 4208).mem 4128 = 0 ∧
      get_size (free (free (malloc (malloc (mm_init heap0).2 16).2 16).2 4160) 4208).mem 4176 = 0 := by
  decide

/-- C8 (amended): for two physically adjacent blocks obtained from consecutive `malloc`
calls (requests at most `2^64 - 48`, growth succeeding inside the 64-bit address space) in
a state whose free list is well formed and lies below the heap end, after both are
released in either order the free list holds two separate entries, one per block, the
later released first, in front of the previous members; no header size is changed. -/
theorem free_adjacent_blocks_not_merged (s : State) (cells : List Nat) (n1 n2 : Nat)
    (hwf : FreeList s cells) (hin : ∀ c ∈ cells, c + 32 ≤ s.mem_brk)
    (hmax : s.mem_max_addr < WORD)
    (h1 : 0 < n1 ∧ n1 ≤ MAX_REQUEST) (h2 : 0 < n2 ∧ n2 ≤ MAX_REQUEST)
    (hok : malloc_all_ok s [n1, n2] = true) :
    header_of (malloc (malloc s n1).2 n2).1 = header_of (malloc s n1).1 + asize n1 ∧
      FreeList (free (free (malloc (malloc s n1).2 n2).2 (malloc s n1).1)
          (malloc (malloc s n1).2 n2).1)
        (header_of (malloc (malloc s n1).2 n2).1 :: header_of (malloc s n1).1 :: cells) ∧
      FreeList (free (free (malloc (malloc s n1).2 n2).2 (malloc (malloc s n1).2 n2).1)
          (malloc s n1).1)
        (header_of (malloc s n1).1 :: header_of (malloc (malloc s n1).2 n2).1 :: cells) ∧
      (∀ x, x = header_of (malloc s n1).1 ∨ x = header_of (malloc (malloc s n1).2 n2).1 →
        get_size (free (free (malloc (malloc s n1).2 n2).2 (malloc s n1).1)
          (malloc (malloc s n1).2 n2).1).mem x = get_size s.mem x ∧
        get_size (free (free (malloc (malloc s n1).2 n2).2 (malloc (malloc s n1).2 n2).1)
          (malloc s n1).1).mem x = get_size s.mem x) := by
  obtain ⟨q1, q2, e1, e2, ha⟩ := malloc_twice s n1 n2 hmax h1 h2 hok
  have hwf2 : FreeList (malloc (malloc s n1).2 n2).2 cells :=
    freeList_malloc _ n2 cells (freeList_malloc s n1 cells hwf)
  have hm2 : (malloc (malloc s n1).2 n2).2.mem = s.mem := by
    rw [malloc_mem, malloc_mem]
  generalize (malloc (malloc s n1).2 n2).2 = s2 at hwf2 hm2 ⊢
  generalize (malloc (malloc s n1).2 n2).1 = p2 at q2 e2 ⊢
  generalize (malloc s n1).1 = p1 at q1 e1 ⊢
  have s1c : ∀ c ∈ cells, Sep (header_of p1) c := by
    intro c hc
    have := hin c hc
    rw [e1]; simp only [Sep, SIZEOF_HEADER]; omega
  have s2c : ∀ c ∈ cells, Sep (header_of p2) c := by
    intro c hc
    have := hin c hc
    rw [e2]; simp only [Sep, SIZEOF_HEADER]; omega
  have s12 : Sep (header_of p1) (header_of p2) := by
    rw [e1, e2]; simp only [Sep, SIZEOF_HEADER]; omega
  have wA := freeList_insert s2 cells p1 hwf2 q1 s1c
  have wB := freeList_insert s2 cells p2 hwf2 q2 s2c
  have wA2 := freeList_insert (free s2 p1) (header_of p1 :: cells) p2 wA q2
    (fun c hc => (List.mem_cons.mp hc).elim (fun e => e ▸ s12.flip) (s2c c))
  have wB2 := freeList_insert (free s2 p2) (header_of p2 :: cells) p1 wB q1
    (fun c hc => (List.mem_cons.mp hc).elim (fun e => e ▸ s12) (s1c c))
  refine ⟨by rw [e1, e2], wA2, wB2, ?_⟩
  intro x hx
  have x1 : Apart x (header_of p1) := hx.elim Or.inl (fun e => Or.inr (e ▸ s12.flip))
  have x2 : Apart x (header_of p2) := hx.elim (fun e => Or.inr (e ▸ s12)) Or.inl
  have xc : ∀ c ∈ cells, Apart x c := fun c hc =>
    hx.elim (fun e => Or.inr (e ▸ s1c c hc)) (fun e => Or.inr (e ▸ s2c c hc))
  constructor
  · rw [free_size_same (free s2 p1) (header_of p1 :: cells) p2 x wA q2 x2
        (fun c hc => (List.mem_cons.mp hc).elim (fun e => e ▸ x1) (xc c)),
      free_size_same s2 cells p1 x hwf2 q1 x1 xc, hm2]
  · rw [free_size_same (free s2 p2) (header_of p2 :: cells) p1 x wB q1 x1
        (fun c hc => (List.mem_cons.mp hc).elim (fun e => e ▸ x2) (xc c)),
      free_size_same s2 cells p2 x hwf2 q2 x2 xc, hm2]

/-- Witness for C8 (amended): two `malloc(16)` calls right after `mm_init` on a 4096-byte
heap, whose free list is the prologue alone. -/
theorem free_adjacent_blocks_not_merged_witness :
    header_of (malloc (malloc (mm_init heap0).2 16).2 16).1 =
      header_of (malloc (mm_init heap0).2 16).1 + asize 16 :=
  (free_adjacent_blocks_not_merged (mm_init heap0).2 [4096] 16 16
    (mm_init_freeList heap0 (by decide))
    (fun c hc => by rw [List.mem_singleton.mp hc]; decide)
    (by decide) (by decide) (by decide) (by decide)).1

/-! ## Claims about `realloc` -/

/-- C9, evaluated at the failing input: right after `mm_init`, `realloc(NULL, 16)` returns
`NULL` although the `malloc(16)` it performs returned 4160; the resulting heap end is that
of `malloc(16)`. -/
theorem realloc_null_drops_pointer :
    (realloc (mm_init heap0).2 NULL 16).1 = NULL ∧
      (malloc (mm_init heap0).2 16).1 = 4160 ∧
      (realloc (mm_init heap0).2 NULL 16).2.mem_brk = (malloc (mm_init heap0).2 16).2.mem_brk := by
  decide

/-- C11, as stated, fails: after `mm_init` and `p = malloc(16) = 4160`, `realloc(p, 40)`
returns 4208, which differs from `p`, yet the free list is still the prologue alone with
`free_head` at the prologue, so the old block at 4128 is neither its head nor a member. -/
theorem realloc_keeps_old_block_allocated :
    (malloc (mm_init heap0).2 16).1 = 4160 ∧
      (realloc (malloc (mm_init heap0).2 16).2 4160 40).1 = 4208 ∧
      header_of 4160 = 4128 ∧
      (realloc (malloc (mm_init heap0).2 16).2 4160 40).2.free_head = 4096 ∧
      (realloc (malloc (mm_init heap0).2 16).2 4160 40).2.free_last = 4096 ∧
      get_next (realloc (malloc (mm_init heap0).2 16).2 4160 40).2.mem 4096 = 4096 := by
  decide

/-- C11 (amended): in a state whose free list is well formed with members `cells` below
the heap end, for every non-null pointer `p` inside the heap and every `n` with
`0 < n <= 2^64 - 48` whose growth succeeds inside the 64-bit address space, `realloc(p, n)`
returns a pointer different from `p` and releases nothing: `free_head` and `free_last` are
unchanged, the free list has the same members as before, so a block that was not a member
is none afterwards, and the `free` field of the old block is unchanged. -/
theorem realloc_does_not_release (s : State) (cells : List Nat) (p n : Nat)
    (hwf : FreeList s cells) (hin : ∀ c ∈ cells, c + 32 ≤ s.mem_brk)
    (hp : 32 ≤ p ∧ p ≤ s.mem_brk) (hn : 0 < n ∧ n ≤ MAX_REQUEST)
    (hok : sbrk_ok s (asize n) = true) (hmax : s.mem_max_addr < WORD) :
    (realloc s p n).1 ≠ p ∧
      (realloc s p n).2.free_head = s.free_head ∧
      (realloc s p n).2.free_last = s.free_last ∧
      FreeList (realloc s p n).2 cells ∧
      (header_of p ∉ cells → ∀ k,
        header_of p ∉ walk (realloc s p n).2.mem (realloc s p n).2.free_head k) ∧
      get_free (realloc s p n).2.mem (header_of p) = get_free s.mem (header_of p) := by
  have hp0 : p ≠ NULL := by simp only [NULL]; omega
  have hn0 : n ≠ 0 := by omega
  have an := asize_bounds n hn.2
  have pn := malloc_grow_ptr s n hn0 hok
  simp only [sbrk_ok, decide_eq_true_eq] at hok
  have eq : (malloc s n).1 = s.mem_brk + 32 := by
    rw [pn]; exact Nat.mod_eq_of_lt (by omega)
  obtain ⟨k1, k2⟩ := realloc_copy_heads s p n hp0 hn0
  have hmem : ∀ x, x < s.mem_brk + 32 → (realloc s p n).2.mem x = s.mem x := by
    intro x hx
    rw [realloc_copy_mem s p n hp0 hn0, eq]
    exact memcpy_outside n s.mem _ p x (Or.inl hx)
  have hwf2 : FreeList (realloc s p n).2 cells :=
    freeList_congr_below s _ cells (s.mem_brk + 32) hmem k1 k2
      (fun c hc => by have := hin c hc; omega) hwf
  refine ⟨by rw [realloc_copy_fst s p n hp0 hn0, eq]; omega, k1, k2, hwf2, ?_, ?_⟩
  · intro hnot k hmemb
    exact hnot (freeList_reachable _ cells hwf2 k _ hmemb)
  · rw [header_of_eq p hp.1 (by omega)]
    exact load_congr 4 _ _ _ (fun x _ h2 => hmem x (by omega))

/-- Witness for C11 (amended): `p = malloc(16) = 4160` right after `mm_init` on a 4096-byte
heap, then `realloc(p, 40)`. -/
theorem realloc_does_not_release_witness :
    FreeList (malloc (mm_init heap0).2 16).2 [4096] ∧
      FreeList (realloc (malloc (mm_init heap0).2 16).2 4160 40).2 [4096] :=
  have hwf : FreeList (malloc (mm_init heap0).2 16).2 [4096] :=
    freeList_malloc _ 16 [4096] (mm_init_freeList heap0 (by decide))
  ⟨hwf, (realloc_does_not_release (malloc (mm_init heap0).2 16).2 [4096] 4160 40 hwf
    (fun c hc => by rw [List.mem_singleton.mp hc]; decide)
    (by decide) (by decide) (by decide) (by decide)).2.2.2.1⟩

/-- C12: for every non-null pointer `p`, `realloc(p, 0)` returns `NULL` and leaves exactly
the state that `free(p)` leaves from the same starting state. -/
theorem realloc_zero_is_free (s : State) (p : Nat) (hp : p ≠ NULL) :
    (realloc s p 0).1 = NULL ∧ (realloc s p 0).2 = free s p := by
  simp only [realloc, if_neg hp, if_pos, and_self]

/-- Witness for C12: `realloc(4160, 0)` after `mm_init` and `malloc(16) = 4160` on a
4096-byte heap. -/
theorem realloc_zero_is_free_witness :
    (malloc (mm_init heap0).2 16).1 = 4160 ∧
      (realloc (malloc (mm_init heap0).2 16).2 4160 0).1 = NULL ∧
      (realloc (malloc (mm_init heap0).2 16).2 4160 0).2 =
        free (malloc (mm_init heap0).2 16).2 4160 :=
  ⟨by decide, realloc_zero_is_free (malloc (mm_init heap0).2 16).2 4160 (by decide)⟩

/-! ## Claims about `calloc` -/

/-- C15: when the growth request of `mm_init` succeeds (inside the 64-bit address space),
`mm_init` returns `true`; the prologue is the start of the managed region, its size field
is `align(sizeof(struct header_t))`, a multiple of 16 that holds the header, its `next` and
`prev` both point to the prologue itself, and `free_head` and `free_last` are both the
prologue. -/
theorem mm_init_establishes_prologue (s0 : State) (hmax : s0.mem_max_addr < WORD)
    (hok : sbrk_ok s0 (align SIZEOF_HEADER) = true) :
    (mm_init s0).1 = true ∧
      (mm_init s0).2.prologue = s0.mem_brk ∧
      (mm_init s0).2.mem_brk = s0.mem_brk + align SIZEOF_HEADER ∧
      get_size (mm_init s0).2.mem (mm_init s0).2.prologue = align SIZEOF_HEADER ∧
      align SIZEOF_HEADER % 16 = 0 ∧ SIZEOF_HEADER ≤ align SIZEOF_HEADER ∧
      get_next (mm_init s0).2.mem (mm_init s0).2.prologue = (mm_init s0).2.prologue ∧
      get_prev (mm_init s0).2.mem (mm_init s0).2.prologue = (mm_init s0).2.prologue ∧
      (mm_init s0).2.free_head = (mm_init s0).2.prologue ∧
      (mm_init s0).2.free_last = (mm_init s0).2.prologue := by
  obtain ⟨hp, hb⟩ := mm_init_ok_prologue s0 hok
  have hlt : (mm_init s0).2.prologue < WORD := by
    simp only [sbrk_ok, decide_eq_true_eq, align_header] at hok
    rw [hp]; omega
  obtain ⟨f1, f2, f3, _⟩ := mm_init_fields s0 hlt
  obtain ⟨k1, k2⟩ := mm_init_heads s0
  rw [align_header]
  exact ⟨by simp only [mm_init], hp, hb, f1, by decide, by decide, f2, f3, k1, k2⟩

/-- Witness for C15: `mm_init` on a 4096-byte heap at address 4096. -/
theorem mm_init_establishes_prologue_witness :
    (mm_init heap0).1 = true ∧ (mm_init heap0).2.prologue = heap0.mem_brk ∧
      (mm_init heap0).2.mem_brk = heap0.mem_brk + align SIZEOF_HEADER :=
  have h := mm_init_establishes_prologue heap0 (by decide) (by decide)
  ⟨h.1, h.2.1, h.2.2.1⟩

/-- C19, as stated, fails: for the `size_t` value `x = 2^64 - 1` the sum `x + 15` wraps and
`align(x)` is 0, which is below `x`; and for `size = 2^64 - 1` the block size `asize` is
32, below header size plus `size`. -/
theorem align_wraps_near_size_max :
    align (2 ^ 64 - 1) = 0 ∧ ¬ (2 ^ 64 - 1 ≤ align (2 ^ 64 - 1)) ∧
      asize (2 ^ 64 - 1) = 32 ∧ ¬ (SIZEOF_HEADER + (2 ^ 64 - 1) ≤ asize (2 ^ 64 - 1)) := by
  decide

/-- C19 (amended): for every `x <= 2^64 - 16`, `align(x)` is the smallest multiple of 16
that is greater than or equal to `x`; consequently for every `size <= 2^64 - 48` the block
size `asize = align(align(sizeof(header)) + size)` is a multiple of 16 and at least header
size plus `size`. -/
theorem align_rounds_up (x : Nat) (hx : x ≤ WORD - 16) :
    (align x % 16 = 0 ∧ x ≤ align x ∧ ∀ y, y % 16 = 0 → x ≤ y → align x ≤ y) ∧
      ∀ size, size ≤ MAX_REQUEST →
        asize size = align (align SIZEOF_HEADER + size) ∧
          asize size % 16 = 0 ∧ SIZEOF_HEADER + size ≤ asize size := by
  refine ⟨align_spec x hx, ?_⟩
  intro size hs
  have hb := asize_bounds size hs
  refine ⟨?_, asize_mod size, by simp only [SIZEOF_HEADER]; omega⟩
  simp only [MAX_REQUEST, WORD] at hs
  simp only [asize, align_header, WORD]
  rw [Nat.mod_eq_of_lt (by omega)]

/-- Witness for C19 (amended): `align(33) = 48` and `asize` for a request of 100 bytes. -/
theorem align_rounds_up_witness :
    (align 33 % 16 = 0 ∧ 33 ≤ align 33 ∧ ∀ y, y % 16 = 0 → 33 ≤ y → align 33 ≤ y) ∧
      (asize 100 = align (align SIZEOF_HEADER + 100) ∧
        asize 100 % 16 = 0 ∧ SIZEOF_HEADER + 100 ≤ asize 100) :=
  ⟨(align_rounds_up 33 (by decide)).1, (align_rounds_up 33 (by decide)).2 100 (by decide)⟩

/-- C20, evaluated at the failing input: after `mm_init` on a zeroed 4096-byte heap,
`p = malloc(16)` is 4160 and growth succeeded, but `malloc` wrote nothing: the header at
`p - 32 = 4128` has size field 0, not `asize = 48`, and `free` field 0, not 1
(allocated), and the heap bytes are those from before the call. -/
theorem malloc_writes_no_header :
    sbrk_ok (mm_init heap0).2 (asize 16) = true ∧
      (malloc (mm_init heap0).2 16).1 = 4160 ∧ header_of 4160 = 4128 ∧ asize 16 = 48 ∧
      get_size (malloc (mm_init heap0).2 16).2.mem 4128 = 0 ∧
      get_free (malloc (mm_init heap0).2 16).2.mem 4128 = 0 ∧
      (malloc (mm_init heap0).2 16).2.mem = (mm_init heap0).2.mem :=
  ⟨by decide, by decide, by decide, by decide, by decide, by decide, malloc_mem _ _⟩

/-! ## Claims about `find_fit` -/

/-- C16, evaluated at the failing input: on a heap whose bytes at 4128 hold the value 64,
after `mm_init`, `malloc(16) = 4160` and `free(4160)` the free list is the well-formed
circular list of the block 4128 (size 64) and the prologue 4096 (size 32). `find_fit(48)`
finds the fit 4128 but returns its successor, the prologue, whose size 32 is below 48;
the first member with size at least 48 is 4128, not the block returned. -/
theorem find_fit_returns_successor_of_fit :
    FreeList (free (malloc (mm_init heap2).2 16).2 4160) (header_of 4160 :: [4096]) ∧
      header_of 4160 = 4128 ∧
      get_size (free (malloc (mm_init heap2).2 16).2 4160).mem 4128 = 64 ∧
      get_size (free (malloc (mm_init heap2).2 16).2 4160).mem 4096 = 32 ∧
      find_fit (free (malloc (mm_init heap2).2 16).2 4160) 48 2 = some 4096 :=
  ⟨freeList_insert (malloc (mm_init heap2).2 16).2 [4096] 4160
      (freeList_malloc _ 16 [4096] (mm_init_freeList heap2 (by decide))) (by decide)
      (fun c hc => by rw [List.mem_singleton.mp hc]; exact Or.inr (by decide)),
    by decide, by decide, by decide, by decide⟩

/-- C17, evaluated at the failing input: in the same state, whose free list holds the
block 4128 of size 64 besides the prologue 4096, `find_fit(64)` returns `NULL`: the
comparison is the strict `size > asize`, so a block of exactly the requested size is
rejected. -/
theorem find_fit_rejects_exact_size :
    FreeList (free (malloc (mm_init heap2).2 16).2 4160) (header_of 4160 :: [4096]) ∧
      header_of 4160 = 4128 ∧
      (free (malloc (mm_init heap2).2 16).2 4160).prologue = 4096 ∧
      get_size (free (malloc (mm_init heap2).2 16).2 4160).mem 4128 = 64 ∧
      find_fit (free (malloc (mm_init heap2).2 16).2 4160) 64 2 = some NULL :=
  ⟨freeList_insert (malloc (mm_init heap2).2 16).2 [4096] 4160
      (freeList_malloc _ 16 [4096] (mm_init_freeList heap2 (by decide))) (by decide)
      (fun c hc => by rw [List.mem_singleton.mp hc]; exact Or.inr (by decide)),
    by decide, by decide, by decide, by decide⟩

/-- C18, as stated, fails: the history `malloc(2^64 - 31)`, `malloc(1)`, `free(4176)`,
`free(4160)` after `mm_init` has every growth request succeed and releases only pointers
that `malloc` returned, but the wrapped block size makes the two headers overlap, the
second `free` overwrites the `next` link of the first, and `find_fit(8192)` leaves the
list at address 0 and never stops: no amount of fuel yields a result. -/
theorem find_fit_diverges_on_overlapping_headers :
    run_ok (mm_init heap0).2
        [Call.malloc (2 ^ 64 - 31), Call.malloc 1, Call.free 4176, Call.free 4160] = true ∧
      (run (mm_init heap0).2
        [Call.malloc (2 ^ 64 - 31), Call.malloc 1, Call.free 4176, Call.free 4160]).1
        = [some 4160, some 4176, none, none] ∧
      ¬ ∃ fuel, (find_fit heap_overlap 8192 fuel).isSome = true := by
  refine ⟨by decide, by decide, ?_⟩
  have h0 : ∀ fuel, find_fit_loop heap_overlap 8192 fuel false 0 = none :=
    find_fit_loop_diverges_self heap_overlap 8192 0 (by decide) (by decide) (by decide)
  have e1 : get_next heap_overlap.mem 4144 = 0 := by decide
  have h1 : ∀ fuel, find_fit_loop heap_overlap 8192 fuel false 4144 = none :=
    find_fit_loop_diverges_step heap_overlap 8192 4144 (by decide) (by decide)
      (by rw [e1]; exact h0)
  have e2 : get_next heap_overlap.mem 4128 = 4144 := by decide
  have h2 : ∀ fuel, find_fit_loop heap_overlap 8192 fuel false 4128 = none :=
    find_fit_loop_diverges_step heap_overlap 8192 4128 (by decide) (by decide)
      (by rw [e2]; exact h1)
  have e3 : heap_overlap.free_head = 4128 := by decide
  rintro ⟨fuel, hf⟩
  simp only [find_fit, e3, h2 fuel, Option.map_none', Option.isSome_none] at hf
  exact Bool.noConfusion hf

/-- C18 (amended): for every state reached from `mm_init` by a history of `malloc` and
`free` calls whose requests are at most `2^64 - 48` and whose growth succeeds inside the
64-bit address space (`free` only on pointers returned by `malloc` and not yet released),
and for every `asize`, the traversal of `find_fit` terminates: from some number of
iterations on it always yields the same result, it examined only blocks reachable from
`free_head`, each of them once, and it did not examine `free_last`, where it stops. -/
theorem find_fit_terminates (s0 : State) (calls : List Call) (asize : Nat)
    (hmax : s0.mem_max_addr < WORD) (hinit : sbrk_ok s0 (align SIZEOF_HEADER) = true)
    (hv : valid (mm_init s0).2 [] calls = true) :
    ∃ n r,
      (∀ fuel, n ≤ fuel →
        find_fit_loop (run (mm_init s0).2 calls).2 asize fuel false
          (run (mm_init s0).2 calls).2.free_head = some r ∧
        find_fit (run (mm_init s0).2 calls).2 asize fuel =
          some (if r.1 = true then r.2.1 else NULL)) ∧
      r.2.2.Nodup ∧ (run (mm_init s0).2 calls).2.free_last ∉ r.2.2 ∧
      ∀ b ∈ r.2.2, b ∈ walk (run (mm_init s0).2 calls).2.mem
        (run (mm_init s0).2 calls).2.free_head n := by
  obtain ⟨fl, _, _, _, i4, _⟩ :=
    inv_run calls (mm_init s0).2 [] [] (inv_init s0 hmax hinit) hv
  obtain ⟨r, h1, h2, h3, h4⟩ := freeList_find_fit _ _ asize i4
  refine ⟨(fl ++ [(run (mm_init s0).2 calls).2.prologue]).length, r, ?_, h2, h3, ?_⟩
  · intro fuel hf
    have := h1 fuel hf
    exact ⟨this, by simp only [find_fit, this, Option.map_some']⟩
  · intro b hb
    rw [(freeList_walk _ _ i4).1]
    exact h4 b hb

/-- Witness for C18 (amended): the history `malloc(16); malloc(16); free(4160);
free(4208)` on a 4096-byte heap, and `find_fit(48)`. -/
theorem find_fit_terminates_witness :
    valid (mm_init heap0).2 []
        [Call.malloc 16, Call.malloc 16, Call.free 4160, Call.free 4208] = true ∧
      ∃ n r,
        (∀ fuel, n ≤ fuel →
          find_fit_loop (run (mm_init heap0).2
              [Call.malloc 16, Call.malloc 16, Call.free 4160, Call.free 4208]).2 48 fuel false
            (run (mm_init heap0).2
              [Call.malloc 16, Call.malloc 16, Call.free 4160, Call.free 4208]).2.free_head
            = some r ∧
          find_fit (run (mm_init heap0).2
              [Call.malloc 16, Call.malloc 16, Call.free 4160, Call.free 4208]).2 48 fuel =
            some (if r.1 = true then r.2.1 else NULL)) ∧
        r.2.2.Nodup ∧
        (run (mm_init heap0).2
          [Call.malloc 16, Call.malloc 16, Call.free 4160, Call.free 4208]).2.free_last
            ∉ r.2.2 ∧
        ∀ b ∈ r.2.2, b ∈ walk
          (run (mm_init heap0).2
            [Call.malloc 16, Call.malloc 16, Call.free 4160, Call.free 4208]).2.mem
          (run (mm_init heap0).2
            [Call.malloc 16, Call.malloc 16, Call.free 4160, Call.free 4208]).2.free_head n :=
  ⟨by decide, find_fit_terminates heap0
    [Call.malloc 16, Call.malloc 16, Call.free 4160, Call.free 4208] 48
    (by decide) (by decide) (by decide)⟩

end MM
